import Mathlib

/-!
# Swarm scheduler: constraint filter, weighted strategy, two-pass selection

A shallow embedding of `scheduler/scheduler.go`, `scheduler/filter/constraint.go` and
`scheduler/strategy/weighted_node.go`, followed by theorems about them.

Conventions of the embedding:

* a Go result `([]*node.Node, error)` is a pair `List Node × Option GoError`; a nil slice
  is `[]`, a nil error is `none`;
* `int64` values are integers, and every `int64` operation wraps modulo `2^64`
  (`wrapInt64`); division truncates toward zero and is `none` on a zero divisor, where
  Go panics;
* logging calls are dropped: they do not influence any returned value.
-/

set_option linter.dupNamespace false

namespace Swarm

/-! ## Data model -/

/-- A Go `error` value, identified by its message. -/
structure GoError where
  msg : String
deriving DecidableEq, Repr

/-- The `node.Node` record, restricted to the fields the scheduler reads. `Labels` is the
Go map `map[string]string`, kept as an association list; `Containers` is read only
through its length. -/
structure Node where
  ID : String
  Name : String
  Labels : List (String × String)
  Containers : List String
  UsedMemory : Int
  UsedCpus : Int
  TotalMemory : Int
  TotalCpus : Int
  HealthIndicator : Int
deriving DecidableEq, Repr

/-- The Go map read `node.Labels[key]`: the zero value `""` when the key is absent. -/
def Node.label (node : Node) (key : String) : String :=
  (node.Labels.lookup key).getD ""

/-- The `cluster.ContainerConfig` request, restricted to what the scheduler reads:
`Constraints` is the value of `config.Constraints()`. -/
structure ContainerConfig where
  Constraints : List String
  CpuShares : Int
  Memory : Int
  Labels : List (String × String)
deriving DecidableEq, Repr

/-- What a scheduling call returns: the nodes and the error. -/
abbrev NodesResult := List Node × Option GoError

/-- Modelled from the spec: the operator of a parsed constraint. The constants `EQ`
and `NOTEQ` are declared outside `src/`; the spec gives "operator (equals /
not-equals)". -/
inductive Operator where
  | EQ
  | NOTEQ
deriving DecidableEq, Repr

/-- Modelled from the spec: the table `OPERATORS` is declared outside `src/`; the spec
gives the expression syntax "operator ∈ {`==`, `!=`}". -/
def OPERATORS : Operator → String
  | Operator.EQ => "=="
  | Operator.NOTEQ => "!="

/-- The parsed constraint `expr`, with the four fields `constraint.go` reads. -/
structure expr where
  key : String
  operator : Operator
  value : String
  isSoft : Bool
deriving DecidableEq, Repr

/-- The two functions of the expression layer that `constraint.go` calls and that live
outside `src/`: `parseExprs` (expression strings to parsed constraints, or an error)
and `expr.Match` (does the constraint match one of the given strings). They are
parameters of the embedding: every theorem below holds for every such pair. -/
structure ExprLib where
  parseExprs : List String → List expr × Option GoError
  Match : expr → List String → Bool

/-! ## `scheduler/filter/constraint.go` -/

/-- The value of `fmt.Sprintf("%s%s%s", constraint.key, OPERATORS[constraint.operator],
constraint.value)`. -/
def expr.text (constraint : expr) : String :=
  constraint.key ++ OPERATORS constraint.operator ++ constraint.value

/-- The error built at `constraint.go:54`. -/
def errNoNodeSatisfies (constraint : expr) : GoError :=
  ⟨"unable to find a node that satisfies the constraint " ++ constraint.key ++
    OPERATORS constraint.operator ++ constraint.value⟩

/-- The `switch constraint.key` of `constraint.go:35-51`: the reserved key `"node"` is
matched against the node's ID and Name, any other key against `node.Labels[key]`. -/
def ConstraintFilter.nodeMatches (lib : ExprLib) (constraint : expr) (node : Node) : Bool :=
  if constraint.key = "node" then
    lib.Match constraint [node.ID, node.Name]
  else
    lib.Match constraint [node.label constraint.key]

/-- The inner loop `for _, node := range nodes` of `constraint.go:34-52`: `candidates`
grows by `append` with every node that matches. -/
def ConstraintFilter.collect (lib : ExprLib) (constraint : expr) :
    List Node → List Node → List Node
  | [], candidates => candidates
  | node :: rest, candidates =>
    if ConstraintFilter.nodeMatches lib constraint node then
      ConstraintFilter.collect lib constraint rest (candidates ++ [node])
    else
      ConstraintFilter.collect lib constraint rest candidates

/-- The outer loop `for _, constraint := range constraints` of `constraint.go:27-57`,
with `nodes` the loop-carried candidate set. -/
def ConstraintFilter.narrow (lib : ExprLib) : List expr → List Node → Bool → NodesResult
  | [], nodes, _ => (nodes, none)
  | constraint :: rest, nodes, soft =>
    if !soft && constraint.isSoft then
      ConstraintFilter.narrow lib rest nodes soft
    else
      let candidates := ConstraintFilter.collect lib constraint nodes []
      if candidates.length = 0 then
        ([], some (errNoNodeSatisfies constraint))
      else
        ConstraintFilter.narrow lib rest candidates soft

/-- The method `ConstraintFilter.Name`. -/
def ConstraintFilter.Name : String := "constraint"

/-- The method `ConstraintFilter.Filter` (`constraint.go:21-59`). -/
def ConstraintFilter.Filter (lib : ExprLib) (config : ContainerConfig) (nodes : List Node)
    (soft : Bool) : NodesResult :=
  match lib.parseExprs config.Constraints with
  | (_, some err) => ([], some err)
  | (constraints, none) => ConstraintFilter.narrow lib constraints nodes soft

/-- The method `ConstraintFilter.GetFilters` (`constraint.go:62-72`). -/
def ConstraintFilter.GetFilters (lib : ExprLib) (config : ContainerConfig) :
    List String × Option GoError :=
  match lib.parseExprs config.Constraints with
  | (_, some err) => ([], some err)
  | (constraints, none) => (constraints.map expr.text, none)

/-! ## The filter chain -/

/-- The Go interface `filter.Filter`: a name, the filtering method and the listing
method. -/
structure Filter where
  Name : String
  Filter : ContainerConfig → List Node → Bool → NodesResult
  GetFilters : ContainerConfig → List String × Option GoError

/-- The constraint filter as a member of a filter chain. -/
def constraintFilter (lib : ExprLib) : Filter where
  Name := ConstraintFilter.Name
  Filter := ConstraintFilter.Filter lib
  GetFilters := ConstraintFilter.GetFilters lib

/-- Modelled from the spec: `filter.ApplyFilters` is called by `scheduler.go:52` and its
body is outside `src/`. The spec, section 4.2: "Runs each filter in the configured chain
order, feeding each filter's output as the next filter's input (fold/reduce over the
chain). Any filter error aborts the chain and is propagated verbatim." -/
def ApplyFilters : List Filter → ContainerConfig → List Node → Bool → NodesResult
  | [], _, nodes, _ => (nodes, none)
  | f :: rest, config, nodes, soft =>
    match f.Filter config nodes soft with
    | (_, some err) => ([], some err)
    | (candidates, none) => ApplyFilters rest config candidates soft

/-! ## `scheduler/scheduler.go` -/

/-- The Go interface `strategy.PlacementStrategy`. -/
structure PlacementStrategy where
  Name : String
  RankAndSort : ContainerConfig → List Node → NodesResult

/-- The variable `errNoNodeAvailable` (`scheduler.go:16`). -/
def errNoNodeAvailable : GoError := ⟨"No nodes available in the cluster"⟩

/-- The struct `Scheduler` (`scheduler.go:20-25`); its mutex is not used by the
selection path. -/
structure Scheduler where
  strategy : PlacementStrategy
  filters : List Filter

/-- The method `Scheduler.selectNodesForContainer` (`scheduler.go:51-63`): one pass. -/
def Scheduler.selectNodesForContainer (s : Scheduler) (nodes : List Node)
    (config : ContainerConfig) (soft : Bool) : NodesResult :=
  match ApplyFilters s.filters config nodes soft with
  | (_, some err) => ([], some err)
  | (accepted, none) =>
    if accepted.length = 0 then
      ([], some errNoNodeAvailable)
    else
      s.strategy.RankAndSort config accepted

/-- The method `Scheduler.SelectNodesForContainer` (`scheduler.go:37-49`). -/
def Scheduler.SelectNodesForContainer (s : Scheduler) (nodes : List Node)
    (config : ContainerConfig) : NodesResult :=
  match Scheduler.selectNodesForContainer s nodes config true with
  | (_, some _) => Scheduler.selectNodesForContainer s nodes config false
  | (candidates, none) => (candidates, none)

/-! ## `scheduler/strategy/weighted_node.go` -/

/-- The value an `int64` holds after an operation whose exact result is `x`: `x`
reduced modulo `2^64` into `[-2^63, 2^63)`. -/
def wrapInt64 (x : Int) : Int :=
  (x + 2 ^ 63) % 2 ^ 64 - 2 ^ 63

/-- The `int64` addition. -/
def add64 (a b : Int) : Int := wrapInt64 (a + b)

/-- The `int64` multiplication. -/
def mul64 (a b : Int) : Int := wrapInt64 (a * b)

/-- The `int64` division: truncated toward zero; a zero divisor is a run-time panic,
here `none`. -/
def div64 (a b : Int) : Option Int :=
  if b = 0 then none else some (wrapInt64 (Int.tdiv a b))

/-- The struct `weightedNode` (`weighted_node.go:11-15`). -/
structure weightedNode where
  Node : Node
  Weight : Int
deriving DecidableEq, Repr

/-- The type `weightedNodeList` (`weighted_node.go:17`). -/
abbrev weightedNodeList := List weightedNode

/-- The body of `weightedNodeList.Less` (`weighted_node.go:27-38`) on the two entries
`ip = n[i]` and `jp = n[j]`. -/
def weightedNodeList.Less (ip jp : weightedNode) : Bool :=
  if ip.Weight = jp.Weight then
    decide (ip.Node.Containers.length < jp.Node.Containers.length)
  else
    decide (ip.Weight < jp.Weight)

/-- Modelled from the spec: the variable `ErrNoResourcesAvailable`, returned at
`weighted_node.go:96`, is declared outside `src/`. The spec gives the name of this
sentinel only, "a distinct error from no nodes after filtering"; the name stands for
its message. -/
def ErrNoResourcesAvailable : GoError := ⟨"ErrNoResourcesAvailable"⟩

/-- The first loop of `weighNodes` (`weighted_node.go:43-68`), `weightedNodes` being the
loop-carried list. The result is `none` when a division panics. -/
def weighNodes.scoreLoop (config : ContainerConfig) (healthinessFactor : Int) :
    List Node → weightedNodeList → Option weightedNodeList
  | [], weightedNodes => some weightedNodes
  | node :: rest, weightedNodes =>
    let nodeMemory := node.TotalMemory
    let nodeCpus := node.TotalCpus
    if nodeMemory < config.Memory || nodeCpus < config.CpuShares then
      weighNodes.scoreLoop config healthinessFactor rest weightedNodes
    else
      (if config.CpuShares > 0 then
        div64 (mul64 (add64 node.UsedCpus config.CpuShares) 100) nodeCpus
      else some 100).bind fun cpuScore =>
      (if config.Memory > 0 then
        div64 (mul64 (add64 node.UsedMemory config.Memory) 100) nodeMemory
      else some 100).bind fun memoryScore =>
      if cpuScore ≤ 100 && memoryScore ≤ 100 then
        weighNodes.scoreLoop config healthinessFactor rest
          (weightedNodes ++ [⟨node, add64 (add64 cpuScore memoryScore)
            (mul64 healthinessFactor node.HealthIndicator)⟩])
      else
        weighNodes.scoreLoop config healthinessFactor rest weightedNodes

/-- The second loop of `weighNodes` (`weighted_node.go:70-93`), run when no node was
kept: it recomputes the scores for the log and returns nothing; `none` is a panic. -/
def weighNodes.logLoop (config : ContainerConfig) : List Node → Option Unit
  | [] => some ()
  | node :: rest =>
    let nodeMemory := node.TotalMemory
    let nodeCpus := node.TotalCpus
    if nodeMemory < config.Memory || nodeCpus < config.CpuShares then
      weighNodes.logLoop config rest
    else
      (if config.CpuShares > 0 then
        div64 (mul64 (add64 node.UsedCpus config.CpuShares) 100) nodeCpus
      else some 100).bind fun _cpuScore =>
      (if config.Memory > 0 then
        div64 (mul64 (add64 node.UsedMemory config.Memory) 100) nodeMemory
      else some 100).bind fun _memoryScore =>
      weighNodes.logLoop config rest

/-- The function `weighNodes` (`weighted_node.go:40-99`): `none` is a run-time panic,
`some (list, err)` is the returned pair. -/
def weighNodes (config : ContainerConfig) (nodes : List Node) (healthinessFactor : Int) :
    Option (weightedNodeList × Option GoError) :=
  (weighNodes.scoreLoop config healthinessFactor nodes []).bind fun weightedNodes =>
    if weightedNodes.length = 0 then
      (weighNodes.logLoop config nodes).bind fun _ => some ([], some ErrNoResourcesAvailable)
    else
      some (weightedNodes, none)

/-- Stable insertion of one entry into a list sorted by `weightedNodeList.Less`. -/
def weightedNodeList.insertSorted (x : weightedNode) : weightedNodeList → weightedNodeList
  | [] => [x]
  | y :: ys =>
    if weightedNodeList.Less x y then x :: y :: ys
    else y :: weightedNodeList.insertSorted x ys

/-- Modelled from the spec: the sort applied by the weighted strategy, section 4.3:
"ascending by Weight", "the node with fewer currently-assigned workloads sorts first",
"stable with respect to input order for any remaining ties". -/
def weightedNodeList.sort : weightedNodeList → weightedNodeList
  | [] => []
  | x :: xs => weightedNodeList.insertSorted x (weightedNodeList.sort xs)

/-- The error standing for a run-time panic inside a strategy. `weighNodes` never
panics (`weighNodes_ne_none`), so no result below carries it. -/
def errPanic : GoError := ⟨"runtime error: integer divide by zero"⟩

/-- Modelled from the spec: the method `RankAndSort` of the resource-weighted strategies
is defined outside `src/`. The spec, section 4.3: weigh the nodes, fail with
`ErrNoResourcesAvailable` when none is feasible, otherwise return the nodes in ascending
order of weight. -/
def weightedRankAndSort (healthinessFactor : Int) (config : ContainerConfig)
    (nodes : List Node) : NodesResult :=
  match weighNodes config nodes healthinessFactor with
  | none => ([], some errPanic)
  | some (_, some err) => ([], some err)
  | some (weightedNodes, none) =>
    ((weightedNodeList.sort weightedNodes).map weightedNode.Node, none)

/-- Modelled from the spec: a resource-weighted placement strategy with the configured
`healthinessFactor`. -/
def weightedStrategy (healthinessFactor : Int) : PlacementStrategy where
  Name := "weighted"
  RankAndSort := weightedRankAndSort healthinessFactor

/-! ## Vocabulary of the statements -/

/-- The constraints that `ConstraintFilter.Filter` applies: all of them when soft
constraints are enforced, the hard ones only when they are not. -/
def appliedConstraints (soft : Bool) (constraints : List expr) : List expr :=
  constraints.filter fun c => soft || !c.isSoft

/-- The hard constraints of a list. -/
def hardConstraints (constraints : List expr) : List expr :=
  constraints.filter fun c => !c.isSoft

/-- The node matches every constraint of the list, the key `"node"` being read against
the node's ID and Name and any other key against `node.Labels[key]`. -/
def satisfiesAll (lib : ExprLib) (constraints : List expr) (node : Node) : Bool :=
  constraints.all fun c =>
    if c.key = "node" then lib.Match c [node.ID, node.Name]
    else lib.Match c [node.label c.key]

/-- The candidates left once every constraint of the list has narrowed the input. -/
def survivors (lib : ExprLib) (constraints : List expr) (nodes : List Node) : List Node :=
  nodes.filter (satisfiesAll lib constraints)

/-- The CPU score the scoring loop computes for a node it does not skip, the divisor
being non-zero. -/
def cpuScoreOf (config : ContainerConfig) (node : Node) : Int :=
  if config.CpuShares > 0 then
    wrapInt64 (Int.tdiv (mul64 (add64 node.UsedCpus config.CpuShares) 100) node.TotalCpus)
  else 100

/-- The memory score the scoring loop computes for a node it does not skip, the divisor
being non-zero. -/
def memoryScoreOf (config : ContainerConfig) (node : Node) : Int :=
  if config.Memory > 0 then
    wrapInt64 (Int.tdiv (mul64 (add64 node.UsedMemory config.Memory) 100) node.TotalMemory)
  else 100

/-- The node passes the test of `weighted_node.go:48`: it is not smaller than the
request. -/
def largeEnough (config : ContainerConfig) (node : Node) : Bool :=
  !(decide (node.TotalMemory < config.Memory) || decide (node.TotalCpus < config.CpuShares))

/-- The entry that one turn of the scoring loop appends for a node, if it appends one. -/
def weighNodes.entry (config : ContainerConfig) (healthinessFactor : Int) (node : Node) :
    Option weightedNode :=
  if largeEnough config node && decide (cpuScoreOf config node ≤ 100) &&
      decide (memoryScoreOf config node ≤ 100) then
    some ⟨node, add64 (add64 (cpuScoreOf config node) (memoryScoreOf config node))
      (mul64 healthinessFactor node.HealthIndicator)⟩
  else none

/-- The CPU score as claim C10 words it: 100 when the request asks for zero CPU shares,
`(usedCpu + requestedCpu) * 100 / totalCpu` otherwise. -/
def claimedCpuScore (config : ContainerConfig) (node : Node) : Int :=
  if config.CpuShares = 0 then 100
  else wrapInt64 (Int.tdiv (mul64 (add64 node.UsedCpus config.CpuShares) 100) node.TotalCpus)

/-- The memory score as claim C10 words it, symmetric to `claimedCpuScore`. -/
def claimedMemoryScore (config : ContainerConfig) (node : Node) : Int :=
  if config.Memory = 0 then 100
  else wrapInt64 (Int.tdiv (mul64 (add64 node.UsedMemory config.Memory) 100) node.TotalMemory)

/-- The weight as claim C10 words it. -/
def claimedWeight (config : ContainerConfig) (healthinessFactor : Int) (node : Node) : Int :=
  add64 (add64 (claimedCpuScore config node) (claimedMemoryScore config node))
    (mul64 healthinessFactor node.HealthIndicator)

/-- The feasibility check of the scoring loop (`weighted_node.go:48` and `:65`): the
node is not smaller than the request and both of its scores are at most 100. -/
def feasible (config : ContainerConfig) (node : Node) : Bool :=
  largeEnough config node && decide (cpuScoreOf config node ≤ 100) &&
    decide (memoryScoreOf config node ≤ 100)

/-- The contract of a filter, spec section 2: it "narrows a candidate node set by
excluding nodes". A successful call returns only nodes it was given. -/
def Filter.narrows (f : Swarm.Filter) : Prop :=
  ∀ (config : ContainerConfig) (nodes : List Node) (soft : Bool),
    (f.Filter config nodes soft).2 = none →
      ∀ node ∈ (f.Filter config nodes soft).1, node ∈ nodes

/-- The scoring loop of `weighNodes` with the division primitive as a parameter; with
`div64` it is `weighNodes.scoreLoop`. -/
def weighNodes.scoreLoopWith (dv : Int → Int → Option Int) (config : ContainerConfig)
    (healthinessFactor : Int) : List Node → weightedNodeList → Option weightedNodeList
  | [], weightedNodes => some weightedNodes
  | node :: rest, weightedNodes =>
    let nodeMemory := node.TotalMemory
    let nodeCpus := node.TotalCpus
    if nodeMemory < config.Memory || nodeCpus < config.CpuShares then
      weighNodes.scoreLoopWith dv config healthinessFactor rest weightedNodes
    else
      (if config.CpuShares > 0 then
        dv (mul64 (add64 node.UsedCpus config.CpuShares) 100) nodeCpus
      else some 100).bind fun cpuScore =>
      (if config.Memory > 0 then
        dv (mul64 (add64 node.UsedMemory config.Memory) 100) nodeMemory
      else some 100).bind fun memoryScore =>
      if cpuScore ≤ 100 && memoryScore ≤ 100 then
        weighNodes.scoreLoopWith dv config healthinessFactor rest
          (weightedNodes ++ [⟨node, add64 (add64 cpuScore memoryScore)
            (mul64 healthinessFactor node.HealthIndicator)⟩])
      else
        weighNodes.scoreLoopWith dv config healthinessFactor rest weightedNodes

/-- The logging loop of `weighNodes` with the division primitive as a parameter; with
`div64` it is `weighNodes.logLoop`. -/
def weighNodes.logLoopWith (dv : Int → Int → Option Int) (config : ContainerConfig) :
    List Node → Option Unit
  | [] => some ()
  | node :: rest =>
    let nodeMemory := node.TotalMemory
    let nodeCpus := node.TotalCpus
    if nodeMemory < config.Memory || nodeCpus < config.CpuShares then
      weighNodes.logLoopWith dv config rest
    else
      (if config.CpuShares > 0 then
        dv (mul64 (add64 node.UsedCpus config.CpuShares) 100) nodeCpus
      else some 100).bind fun _cpuScore =>
      (if config.Memory > 0 then
        dv (mul64 (add64 node.UsedMemory config.Memory) 100) nodeMemory
      else some 100).bind fun _memoryScore =>
      weighNodes.logLoopWith dv config rest

/-- A division that panics on every divisor that is not strictly positive, and is the
`int64` division on the others. -/
def div64Strict (a b : Int) : Option Int :=
  if 0 < b then some (wrapInt64 (Int.tdiv a b)) else none

/-! ## An expression layer for the examples -/

/-- Modelled from the spec: glob-style matching of a value against a pattern, section
4.1: "value supports glob-style wildcard matching (`*`, `?`) in addition to exact
match". `*` stands for any run of characters, `?` for any one character. -/
def globMatch : List Char → List Char → Bool
  | [], s => s.isEmpty
  | p :: ps, s =>
    if p = '*' then s.tails.any fun t => globMatch ps t
    else match s with
      | [] => false
      | c :: cs => (p = '?' || p = c) && globMatch ps cs

/-- Modelled from the spec: the method `expr.Match`, defined outside `src/`. Section
4.1: "A `!=` operator matches when the attribute value does not equal/pattern-match the
constraint value; `==` matches when it does"; for the key `"node"` the attribute is
"the node's identifier or name". -/
def specMatch (e : expr) (whats : List String) : Bool :=
  let found := whats.any fun what => globMatch e.value.toList what.toList
  match e.operator with
  | Operator.EQ => found
  | Operator.NOTEQ => !found

/-- Modelled from the spec: the function `parseExprs`, defined outside `src/`, on the
expressions of the examples. The spec leaves the token that marks a soft constraint
open; here it is `~` after the operator. Any other expression is a syntax error. -/
def specParseExprs : List String → List expr × Option GoError
  | [] => ([], none)
  | e :: rest =>
    match [("zone==east", (⟨"zone", Operator.EQ, "east", false⟩ : expr)),
           ("zone==west", ⟨"zone", Operator.EQ, "west", false⟩),
           ("zone==~east", ⟨"zone", Operator.EQ, "east", true⟩),
           ("rack==~5", ⟨"rack", Operator.EQ, "5", true⟩)].lookup e with
    | none => ([], some ⟨"invalid constraint expression " ++ e⟩)
    | some c =>
      match specParseExprs rest with
      | (_, some err) => ([], some err)
      | (cs, none) => (c :: cs, none)

/-- The expression layer of the examples. -/
def specLib : ExprLib where
  parseExprs := specParseExprs
  Match := specMatch

/-- A scheduler with the constraint filter as its chain and a weighted strategy, health
left out of the weight. -/
def exampleScheduler : Scheduler where
  strategy := weightedStrategy 0
  filters := [constraintFilter specLib]

/-- Node A of the spec's examples: `zone=east`, idle, 10 CPU shares and 100 of memory. -/
def nodeA : Node :=
  { ID := "id-a", Name := "A", Labels := [("zone", "east")], Containers := [],
    UsedMemory := 0, UsedCpus := 0, TotalMemory := 100, TotalCpus := 10,
    HealthIndicator := 0 }

/-- Node B of the spec's examples: `zone=west`, otherwise as node A. -/
def nodeB : Node :=
  { ID := "id-b", Name := "B", Labels := [("zone", "west")], Containers := [],
    UsedMemory := 0, UsedCpus := 0, TotalMemory := 100, TotalCpus := 10,
    HealthIndicator := 0 }

/-- A node in `zone=east` whose total memory is 1. -/
def smallEast : Node :=
  { ID := "id-s", Name := "S", Labels := [("zone", "east")], Containers := [],
    UsedMemory := 0, UsedCpus := 0, TotalMemory := 1, TotalCpus := 10,
    HealthIndicator := 0 }

/-- A request with the given constraint expressions and no resource requirement. -/
def requestWith (constraints : List String) : ContainerConfig :=
  { Constraints := constraints, CpuShares := 0, Memory := 0, Labels := [] }

/-- The node of the spec's scoring example: 2 of 10 CPU shares and 20 of 100 of memory
in use, health indicator 0. -/
def scoredNode : Node :=
  { ID := "id-n", Name := "N", Labels := [], Containers := [],
    UsedMemory := 20, UsedCpus := 2, TotalMemory := 100, TotalCpus := 10,
    HealthIndicator := 0 }

/-- The request of the spec's scoring example: 2 CPU shares and 10 of memory. -/
def scoredRequest : ContainerConfig :=
  { Constraints := [], CpuShares := 2, Memory := 10, Labels := [] }

/-- A node with 101 of its 200 CPU shares in use. -/
def nearlyFullNode : Node :=
  { ID := "id-f", Name := "F", Labels := [], Containers := [],
    UsedMemory := 0, UsedCpus := 101, TotalMemory := 100, TotalCpus := 200,
    HealthIndicator := 0 }

/-- A node of 10 CPU shares whose usage counter is so large that the product with 100
leaves the `int64` range. -/
def overflowingNode : Node :=
  { ID := "id-o", Name := "O", Labels := [], Containers := [],
    UsedMemory := 0, UsedCpus := 184467440737095516, TotalMemory := 100, TotalCpus := 10,
    HealthIndicator := 0 }

/-- A request for the given number of CPU shares and no memory. -/
def cpuRequest (shares : Int) : ContainerConfig :=
  { Constraints := [], CpuShares := shares, Memory := 0, Labels := [] }

/-- A request for a negative number of CPU shares and 10 of memory. -/
def negativeCpuRequest : ContainerConfig :=
  { Constraints := [], CpuShares := -1, Memory := 10, Labels := [] }

/-- A node whose total CPU is zero and whose total memory is negative. -/
def emptyNode : Node :=
  { ID := "id-z", Name := "Z", Labels := [], Containers := [],
    UsedMemory := 0, UsedCpus := 0, TotalMemory := -5, TotalCpus := 0,
    HealthIndicator := 0 }

/-- A request for 10 of memory and no CPU share. -/
def memoryRequest : ContainerConfig :=
  { Constraints := [], CpuShares := 0, Memory := 10, Labels := [] }

/-- Node A with one container assigned. -/
def busyNodeA : Node :=
  { nodeA with Containers := ["c1"] }

/-- A node whose total CPU and total memory are zero. -/
def zeroNode : Node :=
  { ID := "id-0", Name := "0", Labels := [], Containers := [],
    UsedMemory := 0, UsedCpus := 0, TotalMemory := 0, TotalCpus := 0,
    HealthIndicator := 0 }

/-! ## The constraint filter: helper lemmas -/

theorem nodeMatches_eq (lib : ExprLib) (c : expr) (node : Node) :
    ConstraintFilter.nodeMatches lib c node =
      (if c.key = "node" then lib.Match c [node.ID, node.Name]
       else lib.Match c [node.label c.key]) := rfl

theorem satisfiesAll_nil (lib : ExprLib) (node : Node) : satisfiesAll lib [] node = true := rfl

theorem satisfiesAll_cons (lib : ExprLib) (c : expr) (cs : List expr) (node : Node) :
    satisfiesAll lib (c :: cs) node =
      (ConstraintFilter.nodeMatches lib c node && satisfiesAll lib cs node) := by
  simp [satisfiesAll, ConstraintFilter.nodeMatches]

theorem satisfiesAll_append (lib : ExprLib) (cs ds : List expr) (node : Node) :
    satisfiesAll lib (cs ++ ds) node = (satisfiesAll lib cs node && satisfiesAll lib ds node) := by
  simp [satisfiesAll, List.all_append]

theorem survivors_nil (lib : ExprLib) (nodes : List Node) : survivors lib [] nodes = nodes := by
  simp [survivors, satisfiesAll]

theorem survivors_cons (lib : ExprLib) (c : expr) (cs : List expr) (nodes : List Node) :
    survivors lib (c :: cs) nodes =
      survivors lib cs (nodes.filter (ConstraintFilter.nodeMatches lib c)) := by
  unfold survivors
  rw [List.filter_filter]
  congr 1
  funext n
  rw [satisfiesAll_cons, Bool.and_comm]

theorem survivors_append_singleton (lib : ExprLib) (cs : List expr) (c : expr)
    (nodes : List Node) :
    survivors lib (cs ++ [c]) nodes =
      (survivors lib cs nodes).filter (ConstraintFilter.nodeMatches lib c) := by
  unfold survivors
  rw [List.filter_filter]
  congr 1
  funext n
  rw [satisfiesAll_append, satisfiesAll_cons, satisfiesAll_nil, Bool.and_true, Bool.and_comm]

/-- The inner loop appends to `candidates` the matching nodes, in order. -/
theorem collect_eq (lib : ExprLib) (c : expr) (nodes candidates : List Node) :
    ConstraintFilter.collect lib c nodes candidates =
      candidates ++ nodes.filter (ConstraintFilter.nodeMatches lib c) := by
  induction nodes generalizing candidates with
  | nil => simp [ConstraintFilter.collect]
  | cons node rest ih =>
    by_cases h : ConstraintFilter.nodeMatches lib c node = true
    · simp [ConstraintFilter.collect, h, ih]
    · simp [ConstraintFilter.collect, h, ih]

/-- One step of the outer loop on an applied constraint. -/
theorem narrow_cons_applied (lib : ExprLib) (c : expr) (rest : List expr) (nodes : List Node)
    (soft : Bool) (h : (soft || !c.isSoft) = true) :
    ConstraintFilter.narrow lib (c :: rest) nodes soft =
      if nodes.filter (ConstraintFilter.nodeMatches lib c) = [] then
        ([], some (errNoNodeSatisfies c))
      else ConstraintFilter.narrow lib rest (nodes.filter (ConstraintFilter.nodeMatches lib c)) soft := by
  have h' : (!soft && c.isSoft) = false := by
    cases soft <;> cases hs : c.isSoft <;> simp_all
  simp only [ConstraintFilter.narrow, h', collect_eq, List.nil_append, List.length_eq_zero]
  simp

/-- One step of the outer loop on a skipped constraint. -/
theorem narrow_cons_skipped (lib : ExprLib) (c : expr) (rest : List expr) (nodes : List Node)
    (soft : Bool) (h : (soft || !c.isSoft) = false) :
    ConstraintFilter.narrow lib (c :: rest) nodes soft =
      ConstraintFilter.narrow lib rest nodes soft := by
  have h' : (!soft && c.isSoft) = true := by
    cases soft <;> cases hs : c.isSoft <;> simp_all
  simp [ConstraintFilter.narrow, h']

/-- The outer loop sees only the applied constraints. -/
theorem narrow_applied (lib : ExprLib) (cs : List expr) (nodes : List Node) (soft : Bool) :
    ConstraintFilter.narrow lib cs nodes soft =
      ConstraintFilter.narrow lib (appliedConstraints soft cs) nodes true := by
  induction cs generalizing nodes with
  | nil => simp [appliedConstraints, ConstraintFilter.narrow]
  | cons c rest ih =>
    by_cases h : (soft || !c.isSoft) = true
    · have hl : appliedConstraints soft (c :: rest) = c :: appliedConstraints soft rest := by
        simp [appliedConstraints, List.filter_cons, h]
      rw [hl, narrow_cons_applied lib c rest nodes soft h,
        narrow_cons_applied lib c _ nodes true (by simp)]
      split
      · rfl
      · exact ih _
    · have h0 : (soft || !c.isSoft) = false := by simpa using h
      have hl : appliedConstraints soft (c :: rest) = appliedConstraints soft rest := by
        simp [appliedConstraints, List.filter_cons, h0]
      rw [hl, narrow_cons_skipped lib c rest nodes soft h0]
      exact ih _

/-- With every constraint applied, the loop either fails or returns the survivors. -/
theorem narrow_true_cases (lib : ExprLib) (cs : List expr) (nodes : List Node) :
    ConstraintFilter.narrow lib cs nodes true = (survivors lib cs nodes, none) ∨
      ∃ c ∈ cs, ConstraintFilter.narrow lib cs nodes true = ([], some (errNoNodeSatisfies c)) := by
  induction cs generalizing nodes with
  | nil => left; simp [ConstraintFilter.narrow, survivors_nil]
  | cons c rest ih =>
    rw [narrow_cons_applied lib c rest nodes true (by simp), survivors_cons]
    split
    · right; exact ⟨c, List.mem_cons_self _ _, rfl⟩
    · rcases ih (nodes.filter (ConstraintFilter.nodeMatches lib c)) with h | ⟨d, hd, h⟩
      · left; exact h
      · right; exact ⟨d, List.mem_cons_of_mem _ hd, h⟩

/-- The survivors of a longer constraint list are among those of a shorter one. -/
theorem survivors_append_eq_nil (lib : ExprLib) (cs ds : List expr) (nodes : List Node)
    (h : survivors lib cs nodes = []) : survivors lib (cs ++ ds) nodes = [] := by
  simp only [survivors, List.filter_eq_nil_iff] at h ⊢
  intro n hn
  have := h n hn
  simp [satisfiesAll_append, this]

/-- With every constraint applied and survivors left at the end, the loop succeeds,
unless there is nothing to apply. -/
theorem narrow_true_of_survivors (lib : ExprLib) (cs : List expr) (nodes : List Node)
    (h : survivors lib cs nodes ≠ []) :
    ConstraintFilter.narrow lib cs nodes true = (survivors lib cs nodes, none) := by
  induction cs generalizing nodes with
  | nil => simp [ConstraintFilter.narrow, survivors_nil]
  | cons c rest ih =>
    rw [survivors_cons] at h
    rw [narrow_cons_applied lib c rest nodes true (by simp), survivors_cons]
    split
    · rename_i hnil
      rw [hnil] at h
      simp [survivors] at h
    · exact ih _ h

/-- The loop fails at the first applied constraint that matches no surviving candidate. -/
theorem narrow_true_first_failure (lib : ExprLib) (pre : List expr) (c : expr)
    (post : List expr) (nodes : List Node)
    (hpre : ∀ pre1 c1 post1, pre = pre1 ++ c1 :: post1 → survivors lib (pre1 ++ [c1]) nodes ≠ [])
    (hc : (survivors lib pre nodes).filter (ConstraintFilter.nodeMatches lib c) = []) :
    ConstraintFilter.narrow lib (pre ++ c :: post) nodes true =
      ([], some (errNoNodeSatisfies c)) := by
  induction pre generalizing nodes with
  | nil =>
    rw [survivors_nil] at hc
    rw [List.nil_append, narrow_cons_applied lib c post nodes true (by simp), if_pos hc]
  | cons d rest ih =>
    have hd : nodes.filter (ConstraintFilter.nodeMatches lib d) ≠ [] := by
      have := hpre [] d rest rfl
      simpa [survivors_cons, survivors_nil] using this
    rw [List.cons_append, narrow_cons_applied lib d _ nodes true (by simp), if_neg hd]
    apply ih
    · intro pre1 c1 post1 hp
      have := hpre (d :: pre1) c1 post1 (by simp [hp])
      simpa [survivors_cons] using this
    · simpa [survivors_cons] using hc

/-- A failure of the loop is a failure at some first constraint. -/
theorem narrow_true_failure_split (lib : ExprLib) (cs : List expr) (nodes : List Node)
    (h : (ConstraintFilter.narrow lib cs nodes true).2 ≠ none) :
    ∃ pre c post, cs = pre ++ c :: post ∧
      (∀ pre1 c1 post1, pre = pre1 ++ c1 :: post1 → survivors lib (pre1 ++ [c1]) nodes ≠ []) ∧
      (survivors lib pre nodes).filter (ConstraintFilter.nodeMatches lib c) = [] := by
  induction cs generalizing nodes with
  | nil => simp [ConstraintFilter.narrow] at h
  | cons d rest ih =>
    rw [narrow_cons_applied lib d rest nodes true (by simp)] at h
    split at h
    · rename_i hnil
      exact ⟨[], d, rest, rfl, by simp, by simpa [survivors_nil] using hnil⟩
    · rename_i hne
      obtain ⟨pre, c, post, hcs, hpre, hc⟩ := ih _ h
      refine ⟨d :: pre, c, post, by simp [hcs], ?_, by simpa [survivors_cons] using hc⟩
      intro pre1 c1 post1 hp
      cases pre1 with
      | nil =>
        simp at hp
        obtain ⟨rfl, -⟩ := hp
        simpa [survivors_cons, survivors_nil] using hne
      | cons e pre2 =>
        simp at hp
        obtain ⟨rfl, hp2⟩ := hp
        have := hpre pre2 c1 post1 hp2
        simpa [survivors_cons] using this

theorem Filter_of_parse (lib : ExprLib) (config : ContainerConfig) (nodes : List Node)
    (soft : Bool) (cs : List expr) (h : lib.parseExprs config.Constraints = (cs, none)) :
    ConstraintFilter.Filter lib config nodes soft = ConstraintFilter.narrow lib cs nodes soft := by
  simp [ConstraintFilter.Filter, h]

theorem Filter_of_parse_error (lib : ExprLib) (config : ContainerConfig) (nodes : List Node)
    (soft : Bool) (h : (lib.parseExprs config.Constraints).2 ≠ none) :
    (ConstraintFilter.Filter lib config nodes soft).2 ≠ none := by
  unfold ConstraintFilter.Filter
  split
  · simp
  · rename_i heq
    rw [heq] at h
    simp at h

theorem ApplyFilters_single (f : Filter) (config : ContainerConfig) (nodes : List Node)
    (soft : Bool) :
    ApplyFilters [f] config nodes soft =
      match f.Filter config nodes soft with
      | (_, some err) => ([], some err)
      | (candidates, none) => (candidates, none) := by
  simp only [ApplyFilters]

theorem appliedConstraints_false (cs : List expr) :
    appliedConstraints false cs = hardConstraints cs := by
  simp [appliedConstraints, hardConstraints]

theorem appliedConstraints_true (cs : List expr) : appliedConstraints true cs = cs := by
  simp [appliedConstraints]

theorem appliedConstraints_hard (soft : Bool) (cs : List expr) :
    appliedConstraints soft (hardConstraints cs) = hardConstraints cs := by
  simp only [appliedConstraints, hardConstraints, List.filter_filter]
  congr 1
  funext c
  cases soft <;> cases c.isSoft <;> rfl

/-- A successful run of the loop over a non-empty constraint list leaves a node. -/
theorem narrow_true_ok_ne_nil (lib : ExprLib) (cs : List expr) (nodes res : List Node)
    (hcs : cs ≠ []) (h : ConstraintFilter.narrow lib cs nodes true = (res, none)) : res ≠ [] := by
  induction cs generalizing nodes with
  | nil => exact absurd rfl hcs
  | cons c rest ih =>
    rw [narrow_cons_applied lib c rest nodes true (by simp)] at h
    split at h
    · simp at h
    · rename_i hne
      cases rest with
      | nil =>
        simp only [ConstraintFilter.narrow, Prod.mk.injEq, and_true] at h
        rw [← h]; exact hne
      | cons d rest2 => exact ih _ (by simp) h

/-- The loop fails as soon as an applied constraint matches no node of the input. -/
theorem narrow_true_unmatched (lib : ExprLib) (cs : List expr) (nodes : List Node) (h : expr)
    (hmem : h ∈ cs) (hno : ∀ n ∈ nodes, ConstraintFilter.nodeMatches lib h n = false) :
    ∃ c ∈ cs, ConstraintFilter.narrow lib cs nodes true = ([], some (errNoNodeSatisfies c)) := by
  rcases narrow_true_cases lib cs nodes with hok | herr
  · exfalso
    have hne : survivors lib cs nodes ≠ [] :=
      narrow_true_ok_ne_nil lib cs nodes _ (List.ne_nil_of_mem hmem) hok
    obtain ⟨n, hn⟩ := List.exists_mem_of_ne_nil _ hne
    simp only [survivors, List.mem_filter] at hn
    have hall : ∀ c ∈ cs, ConstraintFilter.nodeMatches lib c n = true := by
      have := hn.2
      simpa [satisfiesAll, ConstraintFilter.nodeMatches] using this
    have := hall h hmem
    rw [hno n hn.1] at this
    exact Bool.noConfusion this
  · exact herr

theorem selectNodes_single (lib : ExprLib) (s : Scheduler) (nodes : List Node)
    (config : ContainerConfig) (soft : Bool) (hchain : s.filters = [constraintFilter lib]) :
    s.selectNodesForContainer nodes config soft =
      match ConstraintFilter.Filter lib config nodes soft with
      | (_, some err) => ([], some err)
      | (accepted, none) =>
        if accepted.length = 0 then ([], some errNoNodeAvailable)
        else s.strategy.RankAndSort config accepted := by
  unfold Scheduler.selectNodesForContainer
  rw [hchain, ApplyFilters_single]
  simp only [constraintFilter]
  rcases hF : ConstraintFilter.Filter lib config nodes soft with ⟨acc, _ | err⟩ <;> simp

theorem Select_of_strict_error (s : Scheduler) (nodes : List Node) (config : ContainerConfig)
    (h : (s.selectNodesForContainer nodes config true).2 ≠ none) :
    s.SelectNodesForContainer nodes config = s.selectNodesForContainer nodes config false := by
  unfold Scheduler.SelectNodesForContainer
  rcases hS : s.selectNodesForContainer nodes config true with ⟨c, _ | err⟩
  · rw [hS] at h; simp at h
  · rfl

theorem Select_of_strict_ok (s : Scheduler) (nodes : List Node) (config : ContainerConfig)
    (h : (s.selectNodesForContainer nodes config true).2 = none) :
    s.SelectNodesForContainer nodes config = s.selectNodesForContainer nodes config true := by
  unfold Scheduler.SelectNodesForContainer
  rcases hS : s.selectNodesForContainer nodes config true with ⟨c, _ | err⟩
  · rfl
  · rw [hS] at h; simp at h

theorem selectNodes_of_chain_failure (s : Scheduler) (nodes : List Node)
    (config : ContainerConfig) (soft : Bool)
    (h : (ApplyFilters s.filters config nodes soft).2 ≠ none ∨
      (ApplyFilters s.filters config nodes soft).1 = []) :
    (s.selectNodesForContainer nodes config soft).2 ≠ none := by
  unfold Scheduler.selectNodesForContainer
  rcases hA : ApplyFilters s.filters config nodes soft with ⟨acc, _ | err⟩
  · rw [hA] at h
    rcases h with h | h
    · simp at h
    · simp only at h
      subst h
      simp
  · simp

theorem selectNodes_of_chain_ok (s : Scheduler) (nodes E : List Node)
    (config : ContainerConfig) (soft : Bool)
    (h : ApplyFilters s.filters config nodes soft = (E, none)) (hE : E ≠ []) :
    s.selectNodesForContainer nodes config soft = s.strategy.RankAndSort config E := by
  unfold Scheduler.selectNodesForContainer
  rw [h]
  simp [hE]

/-! ## The scheduler and the constraint filter: the claims -/

/-- C1: `SelectNodesForContainer` is a two-pass selection with exactly one retry. When
the strict pass (the chain with soft constraints enforced, then the strategy) returns no
error, the result is the strict pass's result; when the strict pass's filter chain
returns an error or an empty set, the result, nodes and error alike, is the outcome of
the relaxed pass, and nothing is run after it. -/
theorem SelectNodesForContainer_two_pass (s : Scheduler) (nodes : List Node)
    (config : ContainerConfig) :
    ((s.selectNodesForContainer nodes config true).2 = none →
      s.SelectNodesForContainer nodes config = s.selectNodesForContainer nodes config true) ∧
    ((ApplyFilters s.filters config nodes true).2 ≠ none ∨
        (ApplyFilters s.filters config nodes true).1 = [] →
      s.SelectNodesForContainer nodes config = s.selectNodesForContainer nodes config false) :=
  ⟨Select_of_strict_ok s nodes config,
    fun h => Select_of_strict_error s nodes config
      (selectNodes_of_chain_failure s nodes config true h)⟩

/-- C1, at the spec's example: with only `zone==east` the strict pass succeeds and is
the result; with the soft `rack==5` added the strict chain fails and the relaxed pass is
the result. -/
theorem SelectNodesForContainer_two_pass_witness :
    ((exampleScheduler.selectNodesForContainer [nodeA, nodeB]
        (requestWith ["zone==east"]) true).2 = none ∧
      exampleScheduler.SelectNodesForContainer [nodeA, nodeB] (requestWith ["zone==east"]) =
        exampleScheduler.selectNodesForContainer [nodeA, nodeB]
          (requestWith ["zone==east"]) true) ∧
    (((ApplyFilters exampleScheduler.filters (requestWith ["zone==east", "rack==~5"])
          [nodeA, nodeB] true).2 ≠ none ∨
        (ApplyFilters exampleScheduler.filters (requestWith ["zone==east", "rack==~5"])
          [nodeA, nodeB] true).1 = []) ∧
      exampleScheduler.SelectNodesForContainer [nodeA, nodeB]
          (requestWith ["zone==east", "rack==~5"]) =
        exampleScheduler.selectNodesForContainer [nodeA, nodeB]
          (requestWith ["zone==east", "rack==~5"]) false ∧
      exampleScheduler.SelectNodesForContainer [nodeA, nodeB]
          (requestWith ["zone==east", "rack==~5"]) = ([nodeA], none)) :=
  ⟨⟨by decide,
      (SelectNodesForContainer_two_pass exampleScheduler [nodeA, nodeB]
        (requestWith ["zone==east"])).1 (by decide)⟩,
    ⟨Or.inl (by decide),
      (SelectNodesForContainer_two_pass exampleScheduler [nodeA, nodeB]
        (requestWith ["zone==east", "rack==~5"])).2 (Or.inl (by decide)),
      by decide⟩⟩

/-- C2, as stated, fails: the strict chain keeps the one node of `zone=east`, the
strategy answers `ErrNoResourcesAvailable` on it, and the call still succeeds, with the
node that the relaxed pass admits. -/
theorem strategy_error_not_terminal :
    ApplyFilters exampleScheduler.filters
        { requestWith ["zone==~east"] with Memory := 10 } [smallEast, nodeB] true =
      ([smallEast], none) ∧
    exampleScheduler.strategy.RankAndSort
        { requestWith ["zone==~east"] with Memory := 10 } [smallEast] =
      ([], some ErrNoResourcesAvailable) ∧
    exampleScheduler.SelectNodesForContainer [smallEast, nodeB]
        { requestWith ["zone==~east"] with Memory := 10 } = ([nodeB], none) ∧
    exampleScheduler.SelectNodesForContainer [smallEast, nodeB]
        { requestWith ["zone==~east"] with Memory := 10 } ≠
      exampleScheduler.strategy.RankAndSort
        { requestWith ["zone==~east"] with Memory := 10 } [smallEast] := by
  refine ⟨by decide, by decide, by decide, ?_⟩
  intro h
  have h1 : exampleScheduler.SelectNodesForContainer [smallEast, nodeB]
      { requestWith ["zone==~east"] with Memory := 10 } = ([nodeB], none) := by decide
  have h2 : exampleScheduler.strategy.RankAndSort
      { requestWith ["zone==~east"] with Memory := 10 } [smallEast] =
      ([], some ErrNoResourcesAvailable) := by decide
  rw [h1, h2] at h
  exact absurd h (by decide)

/-- C2, amended: when the strict chain returns no error and a non-empty set `E`, a
strategy result without error on `E` is the result of the call, and a strategy error on
`E` (`ErrNoResourcesAvailable` included) starts the relaxed pass, whose outcome is the
result of the call. -/
theorem strategy_error_retried (s : Scheduler) (nodes E : List Node)
    (config : ContainerConfig)
    (hchain : ApplyFilters s.filters config nodes true = (E, none)) (hE : E ≠ []) :
    ((s.strategy.RankAndSort config E).2 = none →
      s.SelectNodesForContainer nodes config = s.strategy.RankAndSort config E) ∧
    ((s.strategy.RankAndSort config E).2 ≠ none →
      s.SelectNodesForContainer nodes config =
        s.selectNodesForContainer nodes config false) := by
  have hstrict := selectNodes_of_chain_ok s nodes E config true hchain hE
  constructor
  · intro h
    rw [← hstrict] at h ⊢
    exact Select_of_strict_ok s nodes config h
  · intro h
    rw [← hstrict] at h
    exact Select_of_strict_error s nodes config h

/-- C2, amended, at two inputs: a strategy error on the strict set is followed by the
relaxed pass, and a strategy success on it is returned. -/
theorem strategy_error_retried_witness :
    (exampleScheduler.SelectNodesForContainer [smallEast, nodeB]
        { requestWith ["zone==~east"] with Memory := 10 } =
      exampleScheduler.selectNodesForContainer [smallEast, nodeB]
        { requestWith ["zone==~east"] with Memory := 10 } false) ∧
    (exampleScheduler.SelectNodesForContainer [nodeA, nodeB] (requestWith ["zone==~east"]) =
      exampleScheduler.strategy.RankAndSort (requestWith ["zone==~east"]) [nodeA]) :=
  ⟨(strategy_error_retried exampleScheduler [smallEast, nodeB] [smallEast]
      { requestWith ["zone==~east"] with Memory := 10 } (by decide) (by decide)).2 (by decide),
    (strategy_error_retried exampleScheduler [nodeA, nodeB] [nodeA]
      (requestWith ["zone==~east"]) (by decide) (by decide)).1 (by decide)⟩

/-- C3: soft-constraint relaxation. With the constraint filter as the chain, when some
node satisfies every hard constraint and the strict pass fails, the relaxed pass hands
the strategy exactly the input nodes that satisfy all hard constraints, in input order,
and `SelectNodesForContainer` returns the strategy's result on that set. -/
theorem soft_constraint_relaxation (lib : ExprLib) (s : Scheduler) (nodes : List Node)
    (config : ContainerConfig) (cs : List expr)
    (hchain : s.filters = [constraintFilter lib])
    (hparse : lib.parseExprs config.Constraints = (cs, none))
    (hhard : nodes.filter (satisfiesAll lib (hardConstraints cs)) ≠ [])
    (hstrict : (s.selectNodesForContainer nodes config true).2 ≠ none) :
    ApplyFilters s.filters config nodes false =
      (nodes.filter (satisfiesAll lib (hardConstraints cs)), none) ∧
    s.selectNodesForContainer nodes config false =
      s.strategy.RankAndSort config (nodes.filter (satisfiesAll lib (hardConstraints cs))) ∧
    s.SelectNodesForContainer nodes config =
      s.strategy.RankAndSort config (nodes.filter (satisfiesAll lib (hardConstraints cs))) := by
  have hF : ConstraintFilter.Filter lib config nodes false =
      (nodes.filter (satisfiesAll lib (hardConstraints cs)), none) := by
    rw [Filter_of_parse lib config nodes false cs hparse, narrow_applied,
      appliedConstraints_false]
    exact narrow_true_of_survivors lib (hardConstraints cs) nodes hhard
  have hA : ApplyFilters s.filters config nodes false =
      (nodes.filter (satisfiesAll lib (hardConstraints cs)), none) := by
    rw [hchain, ApplyFilters_single]
    simp only [constraintFilter]
    rw [hF]
  have hR := selectNodes_of_chain_ok s nodes _ config false hA hhard
  exact ⟨hA, hR, (Select_of_strict_error s nodes config hstrict).trans hR⟩

/-- C3, at the spec's example: nodes A (`zone=east`) and B (`zone=west`), the hard
constraint `zone==east` and the soft constraint `rack==5`. The strict pass fails on the
soft constraint and the result is A alone. -/
theorem soft_constraint_relaxation_witness :
    exampleScheduler.selectNodesForContainer [nodeA, nodeB]
        (requestWith ["zone==east", "rack==~5"]) true =
      ([], some (errNoNodeSatisfies ⟨"rack", Operator.EQ, "5", true⟩)) ∧
    [nodeA, nodeB].filter (satisfiesAll specLib (hardConstraints
        [⟨"zone", Operator.EQ, "east", false⟩, ⟨"rack", Operator.EQ, "5", true⟩])) = [nodeA] ∧
    exampleScheduler.strategy.RankAndSort (requestWith ["zone==east", "rack==~5"]) [nodeA] =
      ([nodeA], none) ∧
    exampleScheduler.SelectNodesForContainer [nodeA, nodeB]
        (requestWith ["zone==east", "rack==~5"]) =
      exampleScheduler.strategy.RankAndSort (requestWith ["zone==east", "rack==~5"])
        ([nodeA, nodeB].filter (satisfiesAll specLib (hardConstraints
          [⟨"zone", Operator.EQ, "east", false⟩, ⟨"rack", Operator.EQ, "5", true⟩]))) :=
  ⟨by decide, by decide, by decide,
    (soft_constraint_relaxation specLib exampleScheduler [nodeA, nodeB]
      (requestWith ["zone==east", "rack==~5"])
      [⟨"zone", Operator.EQ, "east", false⟩, ⟨"rack", Operator.EQ, "5", true⟩]
      rfl (by decide) (by decide) (by decide)).2.2⟩

/-- C4: pure hard-constraint failure. With the constraint filter as the chain, when some
hard constraint matches no node of the input, the strict pass and the relaxed pass both
fail with the filter's no-node-satisfies-constraint error (the relaxed one on a hard
constraint), and `SelectNodesForContainer` returns the relaxed pass's error and no
node. -/
theorem hard_constraint_failure (lib : ExprLib) (s : Scheduler) (nodes : List Node)
    (config : ContainerConfig) (cs : List expr) (h : expr)
    (hchain : s.filters = [constraintFilter lib])
    (hparse : lib.parseExprs config.Constraints = (cs, none))
    (hmem : h ∈ cs) (hhard : h.isSoft = false)
    (hno : ∀ node ∈ nodes, satisfiesAll lib [h] node = false) :
    ∃ c1 ∈ cs, ∃ c2 ∈ cs, c2.isSoft = false ∧
      s.selectNodesForContainer nodes config true = ([], some (errNoNodeSatisfies c1)) ∧
      s.selectNodesForContainer nodes config false = ([], some (errNoNodeSatisfies c2)) ∧
      s.SelectNodesForContainer nodes config = ([], some (errNoNodeSatisfies c2)) := by
  have hno' : ∀ n ∈ nodes, ConstraintFilter.nodeMatches lib h n = false := by
    intro n hn
    have := hno n hn
    simpa [satisfiesAll_cons, satisfiesAll_nil] using this
  obtain ⟨c1, hc1, h1⟩ := narrow_true_unmatched lib cs nodes h hmem hno'
  have hmem2 : h ∈ hardConstraints cs := by
    simp [hardConstraints, hmem, hhard]
  obtain ⟨c2, hc2, h2⟩ := narrow_true_unmatched lib (hardConstraints cs) nodes h hmem2 hno'
  have hc2' : c2 ∈ cs ∧ c2.isSoft = false := by
    simpa [hardConstraints] using hc2
  have hS1 : s.selectNodesForContainer nodes config true =
      ([], some (errNoNodeSatisfies c1)) := by
    rw [selectNodes_single lib s nodes config true hchain,
      Filter_of_parse lib config nodes true cs hparse, h1]
  have hS2 : s.selectNodesForContainer nodes config false =
      ([], some (errNoNodeSatisfies c2)) := by
    rw [selectNodes_single lib s nodes config false hchain,
      Filter_of_parse lib config nodes false cs hparse, narrow_applied,
      appliedConstraints_false, h2]
  refine ⟨c1, hc1, c2, hc2'.1, hc2'.2, hS1, hS2, ?_⟩
  rw [Select_of_strict_error s nodes config (by rw [hS1]; simp), hS2]

/-- C4, at the spec's example: node A (`zone=east`) and the hard constraint
`zone==west`. Both passes fail on that constraint and no node is returned. -/
theorem hard_constraint_failure_witness :
    (∀ node ∈ [nodeA], satisfiesAll specLib [⟨"zone", Operator.EQ, "west", false⟩] node = false) ∧
    (∃ c1 ∈ [(⟨"zone", Operator.EQ, "west", false⟩ : expr)],
      ∃ c2 ∈ [(⟨"zone", Operator.EQ, "west", false⟩ : expr)], c2.isSoft = false ∧
      exampleScheduler.selectNodesForContainer [nodeA] (requestWith ["zone==west"]) true =
        ([], some (errNoNodeSatisfies c1)) ∧
      exampleScheduler.selectNodesForContainer [nodeA] (requestWith ["zone==west"]) false =
        ([], some (errNoNodeSatisfies c2)) ∧
      exampleScheduler.SelectNodesForContainer [nodeA] (requestWith ["zone==west"]) =
        ([], some (errNoNodeSatisfies c2))) :=
  ⟨by decide,
    hard_constraint_failure specLib exampleScheduler [nodeA] (requestWith ["zone==west"])
      [⟨"zone", Operator.EQ, "west", false⟩] ⟨"zone", Operator.EQ, "west", false⟩
      rfl (by decide) (by decide) rfl (by decide)⟩

/-- C5: constraints are conjunctive. Whenever `ConstraintFilter.Filter` succeeds, its
result is the sublist of the input nodes, in the input's order, that match every applied
constraint (all constraints when soft ones are enforced, the hard ones otherwise), the
key `"node"` being matched against the node's ID and Name and any other key against
`node.Labels[key]`. -/
theorem Filter_conjunctive (lib : ExprLib) (config : ContainerConfig)
    (nodes res : List Node) (soft : Bool)
    (h : ConstraintFilter.Filter lib config nodes soft = (res, none)) :
    res = nodes.filter (fun node =>
        (appliedConstraints soft (lib.parseExprs config.Constraints).1).all fun c =>
          if c.key = "node" then lib.Match c [node.ID, node.Name]
          else lib.Match c [node.label c.key]) ∧
      res.Sublist nodes := by
  have key : res = nodes.filter (fun node =>
      (appliedConstraints soft (lib.parseExprs config.Constraints).1).all fun c =>
        if c.key = "node" then lib.Match c [node.ID, node.Name]
        else lib.Match c [node.label c.key]) := by
    rcases hp : lib.parseExprs config.Constraints with ⟨cs, _ | err⟩
    · rw [Filter_of_parse lib config nodes soft cs hp, narrow_applied] at h
      rcases narrow_true_cases lib (appliedConstraints soft cs) nodes with hok | ⟨c, -, herr⟩
      · rw [hok] at h
        simp only [Prod.mk.injEq, and_true] at h
        rw [← h]
        rfl
      · rw [herr] at h
        simp at h
    · simp [ConstraintFilter.Filter, hp] at h
  refine ⟨key, ?_⟩
  rw [key]
  exact List.filter_sublist _

/-- C5, at the spec's example with soft constraints enforced and relaxed. -/
theorem Filter_conjunctive_witness :
    ConstraintFilter.Filter specLib (requestWith ["zone==east", "rack==~5"])
        [nodeA, nodeB] false = ([nodeA], none) ∧
    [nodeA] = [nodeA, nodeB].filter (fun node =>
        (appliedConstraints false
          (specLib.parseExprs (requestWith ["zone==east", "rack==~5"]).Constraints).1).all
          fun c => if c.key = "node" then specLib.Match c [node.ID, node.Name]
            else specLib.Match c [node.label c.key]) ∧
    [nodeA].Sublist [nodeA, nodeB] :=
  ⟨by decide,
    Filter_conjunctive specLib (requestWith ["zone==east", "rack==~5"]) [nodeA, nodeB]
      [nodeA] false (by decide)⟩

/-- C6: `ConstraintFilter.Filter` fails exactly when sequential narrowing empties the
candidate set. With the constraints parsed, it returns an error if and only if some
applied constraint, in expression order, matches none of the candidates that survived
the applied constraints before it; the error is raised at the first such constraint,
whatever follows it, its message names that constraint as key, operator and value, and
no node is returned. -/
theorem Filter_fails_iff_narrowing_empties (lib : ExprLib) (config : ContainerConfig)
    (nodes : List Node) (soft : Bool) (cs : List expr)
    (hparse : lib.parseExprs config.Constraints = (cs, none)) :
    ((ConstraintFilter.Filter lib config nodes soft).2 ≠ none ↔
      ∃ pre c post, appliedConstraints soft cs = pre ++ c :: post ∧
        (nodes.filter (satisfiesAll lib pre)).filter (satisfiesAll lib [c]) = []) ∧
    (∀ pre c post, appliedConstraints soft cs = pre ++ c :: post →
      (∀ pre1 c1 post1, pre = pre1 ++ c1 :: post1 →
        (nodes.filter (satisfiesAll lib pre1)).filter (satisfiesAll lib [c1]) ≠ []) →
      (nodes.filter (satisfiesAll lib pre)).filter (satisfiesAll lib [c]) = [] →
      ConstraintFilter.Filter lib config nodes soft =
        ([], some ⟨"unable to find a node that satisfies the constraint " ++ c.key ++
          OPERATORS c.operator ++ c.value⟩)) := by
  have hone : ∀ c : expr, satisfiesAll lib [c] = ConstraintFilter.nodeMatches lib c := by
    intro c
    funext n
    rw [satisfiesAll_cons, satisfiesAll_nil, Bool.and_true]
  have hsurv : ∀ (pre : List expr) (c : expr),
      (nodes.filter (satisfiesAll lib pre)).filter (satisfiesAll lib [c]) =
        survivors lib (pre ++ [c]) nodes := by
    intro pre c
    rw [survivors_append_singleton, hone]
    rfl
  rw [Filter_of_parse lib config nodes soft cs hparse, narrow_applied]
  constructor
  · constructor
    · intro hfail
      obtain ⟨pre, c, post, hcs, -, hc⟩ :=
        narrow_true_failure_split lib (appliedConstraints soft cs) nodes hfail
      refine ⟨pre, c, post, hcs, ?_⟩
      rw [hone]
      exact hc
    · rintro ⟨pre, c, post, hcs, hc⟩
      rcases narrow_true_cases lib (appliedConstraints soft cs) nodes with hok | ⟨d, -, herr⟩
      · exfalso
        have hne : survivors lib (appliedConstraints soft cs) nodes ≠ [] :=
          narrow_true_ok_ne_nil lib _ nodes _ (by rw [hcs]; simp) hok
        apply hne
        rw [hcs, show pre ++ c :: post = (pre ++ [c]) ++ post by simp]
        apply survivors_append_eq_nil
        rw [← hsurv]
        exact hc
      · rw [herr]
        simp
  · intro pre c post hcs hfirst hc
    rw [hcs]
    refine narrow_true_first_failure lib pre c post nodes ?_ ?_
    · intro pre1 c1 post1 hp
      rw [← hsurv]
      exact hfirst pre1 c1 post1 hp
    · rw [← hone]
      exact hc

/-- C6, at the spec's example: the strict filter fails at `rack==5`, the second
constraint, after `zone==east` has left node A. -/
theorem Filter_fails_iff_narrowing_empties_witness :
    (ConstraintFilter.Filter specLib (requestWith ["zone==east", "rack==~5"])
        [nodeA, nodeB] true).2 ≠ none ∧
    ConstraintFilter.Filter specLib (requestWith ["zone==east", "rack==~5"])
        [nodeA, nodeB] true =
      ([], some ⟨"unable to find a node that satisfies the constraint rack==5"⟩) :=
  ⟨((Filter_fails_iff_narrowing_empties specLib (requestWith ["zone==east", "rack==~5"])
      [nodeA, nodeB] true
      [⟨"zone", Operator.EQ, "east", false⟩, ⟨"rack", Operator.EQ, "5", true⟩] rfl).1).2
      ⟨[⟨"zone", Operator.EQ, "east", false⟩], ⟨"rack", Operator.EQ, "5", true⟩, [],
        by decide, by decide⟩,
    (Filter_fails_iff_narrowing_empties specLib (requestWith ["zone==east", "rack==~5"])
      [nodeA, nodeB] true
      [⟨"zone", Operator.EQ, "east", false⟩, ⟨"rack", Operator.EQ, "5", true⟩] rfl).2
      [⟨"zone", Operator.EQ, "east", false⟩] ⟨"rack", Operator.EQ, "5", true⟩ []
      (by decide)
      (by
        intro pre1 c1 post1 hp
        cases pre1 with
        | nil =>
          simp only [List.nil_append, List.cons.injEq] at hp
          rw [← hp.1]
          decide
        | cons e pre2 =>
          simp only [List.cons_append, List.cons.injEq] at hp
          exact absurd hp.2 (by simp))
      (by decide)⟩

/-- C7: soft constraints are skipped when not enforced. `ConstraintFilter.Filter` with
`enforceSoft = false` returns the same outcome, nodes and error alike, as `Filter` run,
with either value of the flag, on a request whose constraint list is the same list with
every soft constraint removed. -/
theorem Filter_relaxed_eq_hard_only (lib : ExprLib) (config hardOnly : ContainerConfig)
    (nodes : List Node) (soft : Bool) (cs : List expr)
    (hparse : lib.parseExprs config.Constraints = (cs, none))
    (hparse2 : lib.parseExprs hardOnly.Constraints =
      (cs.filter (fun c => !c.isSoft), none)) :
    ConstraintFilter.Filter lib config nodes false =
      ConstraintFilter.Filter lib hardOnly nodes soft := by
  rw [Filter_of_parse lib config nodes false cs hparse,
    Filter_of_parse lib hardOnly nodes soft _ hparse2, narrow_applied, appliedConstraints_false,
    narrow_applied lib (cs.filter (fun c => !c.isSoft)) nodes soft]
  have := appliedConstraints_hard soft cs
  unfold hardConstraints at this ⊢
  rw [this]

/-- C7, at the spec's example: relaxing `zone==east`, `rack==5` (soft) gives what
`zone==east` alone gives. -/
theorem Filter_relaxed_eq_hard_only_witness :
    ConstraintFilter.Filter specLib (requestWith ["zone==east", "rack==~5"])
        [nodeA, nodeB] false =
      ConstraintFilter.Filter specLib (requestWith ["zone==east"]) [nodeA, nodeB] true ∧
    ConstraintFilter.Filter specLib (requestWith ["zone==east", "rack==~5"])
        [nodeA, nodeB] false = ([nodeA], none) :=
  ⟨Filter_relaxed_eq_hard_only specLib (requestWith ["zone==east", "rack==~5"])
      (requestWith ["zone==east"]) [nodeA, nodeB] true
      [⟨"zone", Operator.EQ, "east", false⟩, ⟨"rack", Operator.EQ, "5", true⟩] rfl rfl,
    by decide⟩

/-- C8: for a request whose constraint list is empty, `ConstraintFilter.Filter` returns
the input node list unchanged and in the same order, with no error, for every node list
and either value of `enforceSoft`. -/
theorem Filter_no_constraints (lib : ExprLib) (config : ContainerConfig)
    (nodes : List Node) (soft : Bool)
    (hparse : lib.parseExprs config.Constraints = ([], none)) :
    ConstraintFilter.Filter lib config nodes soft = (nodes, none) := by
  rw [Filter_of_parse lib config nodes soft [] hparse]
  rfl

/-- C8, on two nodes and on the empty node list. -/
theorem Filter_no_constraints_witness :
    ConstraintFilter.Filter specLib (requestWith []) [nodeB, nodeA] true =
      ([nodeB, nodeA], none) ∧
    ConstraintFilter.Filter specLib (requestWith []) [] false = ([], none) :=
  ⟨Filter_no_constraints specLib (requestWith []) [nodeB, nodeA] true rfl,
    Filter_no_constraints specLib (requestWith []) [] false rfl⟩

/-! ## The weighted strategy: helper lemmas -/

theorem wrapInt64_of_range (x : Int) (h1 : -2 ^ 63 ≤ x) (h2 : x < 2 ^ 63) :
    wrapInt64 x = x := by
  unfold wrapInt64
  omega

theorem div64_of_pos (a b : Int) (hb : 0 < b) :
    div64 a b = some (wrapInt64 (Int.tdiv a b)) := by
  unfold div64
  rw [if_neg (by omega)]

/-- One turn of the scoring loop, the divisions being safe behind the size test. -/
theorem scoreLoop_cons (config : ContainerConfig) (hf : Int) (node : Node) (rest : List Node)
    (acc : weightedNodeList) :
    weighNodes.scoreLoop config hf (node :: rest) acc =
      weighNodes.scoreLoop config hf rest
        (acc ++ (weighNodes.entry config hf node).toList) := by
  rw [weighNodes.scoreLoop]
  unfold weighNodes.entry largeEnough cpuScoreOf memoryScoreOf
  by_cases hsmall : node.TotalMemory < config.Memory ∨ node.TotalCpus < config.CpuShares
  · have : (decide (node.TotalMemory < config.Memory) ||
        decide (node.TotalCpus < config.CpuShares)) = true := by simpa using hsmall
    simp [this]
  · have hb : (decide (node.TotalMemory < config.Memory) ||
        decide (node.TotalCpus < config.CpuShares)) = false := by simpa using hsmall
    have hm : config.Memory ≤ node.TotalMemory := by omega
    have hc : config.CpuShares ≤ node.TotalCpus := by omega
    simp only [hb, Bool.false_eq_true, if_false, Bool.not_false, Bool.true_and]
    by_cases hcpu : config.CpuShares > 0 <;> by_cases hmem : config.Memory > 0
    · rw [if_pos hcpu, if_pos hmem, if_pos hcpu, if_pos hmem,
        div64_of_pos _ _ (by omega), div64_of_pos _ _ (by omega)]
      simp only [Option.bind_eq_bind, Option.some_bind, Bool.and_eq_true, decide_eq_true_eq]
      split <;> simp
    · rw [if_pos hcpu, if_neg hmem, if_pos hcpu, if_neg hmem, div64_of_pos _ _ (by omega)]
      simp only [Option.bind_eq_bind, Option.some_bind, Bool.and_eq_true, decide_eq_true_eq]
      split <;> simp
    · rw [if_neg hcpu, if_pos hmem, if_neg hcpu, if_pos hmem, div64_of_pos _ _ (by omega)]
      simp only [Option.bind_eq_bind, Option.some_bind, Bool.and_eq_true, decide_eq_true_eq]
      split <;> simp
    · rw [if_neg hcpu, if_neg hmem, if_neg hcpu, if_neg hmem]
      simp only [Option.bind_eq_bind, Option.some_bind, Bool.and_eq_true, decide_eq_true_eq]
      split <;> simp

/-- The scoring loop never panics: it appends, in input order, the entries of the nodes
that yield one. -/
theorem scoreLoop_eq (config : ContainerConfig) (hf : Int) (nodes : List Node)
    (acc : weightedNodeList) :
    weighNodes.scoreLoop config hf nodes acc =
      some (acc ++ nodes.filterMap (weighNodes.entry config hf)) := by
  induction nodes generalizing acc with
  | nil => simp [weighNodes.scoreLoop]
  | cons node rest ih =>
    rw [scoreLoop_cons, ih]
    cases h : weighNodes.entry config hf node <;> simp [List.filterMap_cons, h]

/-- The logging loop never panics. -/
theorem logLoop_eq (config : ContainerConfig) (nodes : List Node) :
    weighNodes.logLoop config nodes = some () := by
  induction nodes with
  | nil => rfl
  | cons node rest ih =>
    rw [weighNodes.logLoop]
    by_cases hsmall : node.TotalMemory < config.Memory ∨ node.TotalCpus < config.CpuShares
    · have : (decide (node.TotalMemory < config.Memory) ||
          decide (node.TotalCpus < config.CpuShares)) = true := by simpa using hsmall
      simp [this, ih]
    · have hb : (decide (node.TotalMemory < config.Memory) ||
          decide (node.TotalCpus < config.CpuShares)) = false := by simpa using hsmall
      have hm : config.Memory ≤ node.TotalMemory := by omega
      have hc : config.CpuShares ≤ node.TotalCpus := by omega
      simp only [hb, Bool.false_eq_true, if_false]
      by_cases hcpu : config.CpuShares > 0 <;> by_cases hmem : config.Memory > 0
      · rw [if_pos hcpu, if_pos hmem, div64_of_pos _ _ (by omega), div64_of_pos _ _ (by omega)]
        simpa using ih
      · rw [if_pos hcpu, if_neg hmem, div64_of_pos _ _ (by omega)]
        simpa using ih
      · rw [if_neg hcpu, if_pos hmem, div64_of_pos _ _ (by omega)]
        simpa using ih
      · rw [if_neg hcpu, if_neg hmem]
        simpa using ih

/-- The result of `weighNodes` in closed form. -/
theorem weighNodes_eq (config : ContainerConfig) (nodes : List Node) (hf : Int) :
    weighNodes config nodes hf =
      if nodes.filterMap (weighNodes.entry config hf) = [] then
        some ([], some ErrNoResourcesAvailable)
      else some (nodes.filterMap (weighNodes.entry config hf), none) := by
  unfold weighNodes
  rw [scoreLoop_eq, logLoop_eq]
  simp only [List.nil_append, Option.bind_eq_bind, Option.some_bind, List.length_eq_zero]

/-- The function `weighNodes` never panics. -/
theorem weighNodes_ne_none (config : ContainerConfig) (nodes : List Node) (hf : Int) :
    weighNodes config nodes hf ≠ none := by
  rw [weighNodes_eq]
  split <;> simp

/-- Every entry that `weighNodes` returns is the entry of one of the input nodes. -/
theorem weighNodes_mem (config : ContainerConfig) (nodes : List Node) (hf : Int)
    (wl : weightedNodeList) (err : Option GoError) (wn : weightedNode)
    (h : weighNodes config nodes hf = some (wl, err)) (hwn : wn ∈ wl) :
    wn.Node ∈ nodes ∧ weighNodes.entry config hf wn.Node = some wn := by
  rw [weighNodes_eq] at h
  split at h
  · simp only [Option.some.injEq, Prod.mk.injEq] at h
    rw [← h.1] at hwn
    simp at hwn
  · simp only [Option.some.injEq, Prod.mk.injEq] at h
    rw [← h.1, List.mem_filterMap] at hwn
    obtain ⟨n, hn, he⟩ := hwn
    have hnode : wn.Node = n := by
      unfold weighNodes.entry at he
      split at he
      · simp only [Option.some.injEq] at he
        rw [← he]
      · simp at he
    rw [hnode]
    exact ⟨hn, he⟩

/-- A truncated percentage of at most 100 bounds the dividend by 101 times the divisor,
as long as the product with 100 stays in the `int64` range. -/
theorem score_le_hundred (u r t : Int) (hr : 0 < r) (ht : r ≤ t)
    (lo : -2 ^ 63 ≤ (u + r) * 100) (hi : (u + r) * 100 < 2 ^ 63)
    (hs : wrapInt64 (Int.tdiv (mul64 (add64 u r) 100) t) ≤ 100) :
    (u + r) * 100 < 101 * t := by
  have hadd : add64 u r = u + r := wrapInt64_of_range _ (by omega) (by omega)
  have hmul : mul64 (add64 u r) 100 = (u + r) * 100 := by
    rw [hadd]
    exact wrapInt64_of_range _ lo hi
  rw [hmul] at hs
  by_cases hx : 0 ≤ (u + r) * 100
  · have htd : Int.tdiv ((u + r) * 100) t = (u + r) * 100 / t :=
      Int.tdiv_eq_ediv hx (by omega)
    rw [htd] at hs
    have hq0 : 0 ≤ (u + r) * 100 / t := Int.ediv_nonneg hx (by omega)
    have hqle : (u + r) * 100 / t ≤ (u + r) * 100 := Int.ediv_le_self _ hx
    rw [wrapInt64_of_range _ (by omega) (by omega)] at hs
    have hlt : (u + r) * 100 / t < 101 := by omega
    exact (Int.ediv_lt_iff_lt_mul (by omega)).1 hlt
  · omega

theorem entry_some (config : ContainerConfig) (hf : Int) (node : Node) (wn : weightedNode)
    (h : weighNodes.entry config hf node = some wn) :
    largeEnough config node = true ∧ cpuScoreOf config node ≤ 100 ∧
      memoryScoreOf config node ≤ 100 ∧
      wn = ⟨node, add64 (add64 (cpuScoreOf config node) (memoryScoreOf config node))
        (mul64 hf node.HealthIndicator)⟩ := by
  unfold weighNodes.entry at h
  split at h
  · rename_i hc
    simp only [Bool.and_eq_true, decide_eq_true_eq] at hc
    simp only [Option.some.injEq] at h
    exact ⟨hc.1.1, hc.1.2, hc.2, h.symm⟩
  · simp at h

/-! ## The weighted strategy: the claims -/

/-- C9, as stated, fails twice over. Truncation: a node with 101 of 200 CPU shares in
use is kept for a request of 100 shares, the score 100.5 being cut to 100, although
`101 + 100 > 200`. Overflow: a node of 10 CPU shares is kept for a request of 1 share
when its usage counter makes the product with 100 wrap around. -/
theorem kept_node_may_not_fit :
    (weighNodes (cpuRequest 100) [nearlyFullNode] 0 = some ([⟨nearlyFullNode, 200⟩], none) ∧
      0 < (cpuRequest 100).CpuShares ∧
      ¬ nearlyFullNode.UsedCpus + (cpuRequest 100).CpuShares ≤ nearlyFullNode.TotalCpus) ∧
    (weighNodes (cpuRequest 1) [overflowingNode] 0 = some ([⟨overflowingNode, 108⟩], none) ∧
      0 < (cpuRequest 1).CpuShares ∧
      ¬ overflowingNode.UsedCpus + (cpuRequest 1).CpuShares ≤ overflowingNode.TotalCpus) := by
  refine ⟨⟨by decide, by decide, by decide⟩, ⟨by decide, by decide, by decide⟩⟩

/-- C9, amended: for every node that `weighNodes` keeps and every dimension (CPU,
memory) in which the request is positive, provided `(used + requested) * 100` stays in
the `int64` range, `(used + requested) * 100 < 101 * total`: the workload overshoots the
total by less than one percent of it. A node with `(used + requested) * 100` at or above
`101 * total` in such a dimension is never returned. -/
theorem kept_node_within_one_percent (config : ContainerConfig) (nodes : List Node)
    (healthinessFactor : Int) (wl : weightedNodeList) (err : Option GoError)
    (wn : weightedNode)
    (h : weighNodes config nodes healthinessFactor = some (wl, err)) (hwn : wn ∈ wl) :
    (0 < config.CpuShares →
      -2 ^ 63 ≤ (wn.Node.UsedCpus + config.CpuShares) * 100 →
      (wn.Node.UsedCpus + config.CpuShares) * 100 < 2 ^ 63 →
      (wn.Node.UsedCpus + config.CpuShares) * 100 < 101 * wn.Node.TotalCpus) ∧
    (0 < config.Memory →
      -2 ^ 63 ≤ (wn.Node.UsedMemory + config.Memory) * 100 →
      (wn.Node.UsedMemory + config.Memory) * 100 < 2 ^ 63 →
      (wn.Node.UsedMemory + config.Memory) * 100 < 101 * wn.Node.TotalMemory) := by
  obtain ⟨-, hentry⟩ := weighNodes_mem config nodes healthinessFactor wl err wn h hwn
  obtain ⟨hlarge, hcpu, hmem, -⟩ := entry_some config healthinessFactor wn.Node wn hentry
  have hsize : config.Memory ≤ wn.Node.TotalMemory ∧ config.CpuShares ≤ wn.Node.TotalCpus := by
    unfold largeEnough at hlarge
    simp only [Bool.not_eq_true', Bool.or_eq_false_iff, decide_eq_false_iff_not] at hlarge
    omega
  constructor
  · intro hpos lo hi
    unfold cpuScoreOf at hcpu
    rw [if_pos hpos] at hcpu
    exact score_le_hundred _ _ _ hpos hsize.2 lo hi hcpu
  · intro hpos lo hi
    unfold memoryScoreOf at hmem
    rw [if_pos hpos] at hmem
    exact score_le_hundred _ _ _ hpos hsize.1 lo hi hmem

/-- C9, amended, at the spec's scoring example: 2 + 2 of 10 CPU shares and 20 + 10 of
100 of memory. -/
theorem kept_node_within_one_percent_witness :
    weighNodes scoredRequest [scoredNode] 0 = some ([⟨scoredNode, 70⟩], none) ∧
    (scoredNode.UsedCpus + scoredRequest.CpuShares) * 100 < 101 * scoredNode.TotalCpus ∧
    (scoredNode.UsedMemory + scoredRequest.Memory) * 100 < 101 * scoredNode.TotalMemory :=
  ⟨by decide,
    (kept_node_within_one_percent scoredRequest [scoredNode] 0 [⟨scoredNode, 70⟩] none
      ⟨scoredNode, 70⟩ (by decide) (by decide)).1 (by decide) (by decide) (by decide),
    (kept_node_within_one_percent scoredRequest [scoredNode] 0 [⟨scoredNode, 70⟩] none
      ⟨scoredNode, 70⟩ (by decide) (by decide)).2 (by decide) (by decide) (by decide)⟩

/-- C10, as stated, fails: for a request of -1 CPU shares the code scores the CPU
dimension 100, where the claim's formula gives `(2 - 1) * 100 / 10 = 10`; the kept
node's weight is 130 and not 40. -/
theorem weight_formula_fails_on_negative_request :
    weighNodes negativeCpuRequest [scoredNode] 0 = some ([⟨scoredNode, 130⟩], none) ∧
    claimedWeight negativeCpuRequest 0 scoredNode = 40 ∧
    ¬ ∀ wn ∈ [(⟨scoredNode, 130⟩ : weightedNode)],
      wn.Weight = claimedWeight negativeCpuRequest 0 wn.Node := by
  refine ⟨by decide, by decide, ?_⟩
  intro hall
  exact absurd (hall ⟨scoredNode, 130⟩ (List.mem_singleton.2 rfl)) (by decide)

/-- C10, amended: for every node that `weighNodes` keeps, its Weight equals, in `int64`
arithmetic, cpuScore + memoryScore + healthinessFactor * HealthIndicator, where cpuScore
is 100 if the request asks for zero or fewer CPU shares and otherwise
`(usedCpu + requestedCpu) * 100 / totalCpu` with truncating integer division, and
memoryScore is defined symmetrically over memory. -/
theorem kept_node_weight (config : ContainerConfig) (nodes : List Node)
    (healthinessFactor : Int) (wl : weightedNodeList) (err : Option GoError)
    (wn : weightedNode)
    (h : weighNodes config nodes healthinessFactor = some (wl, err)) (hwn : wn ∈ wl) :
    wn.Weight =
      add64
        (add64
          (if config.CpuShares ≤ 0 then 100
           else wrapInt64 (Int.tdiv (mul64 (add64 wn.Node.UsedCpus config.CpuShares) 100)
             wn.Node.TotalCpus))
          (if config.Memory ≤ 0 then 100
           else wrapInt64 (Int.tdiv (mul64 (add64 wn.Node.UsedMemory config.Memory) 100)
             wn.Node.TotalMemory)))
        (mul64 healthinessFactor wn.Node.HealthIndicator) := by
  obtain ⟨-, hentry⟩ := weighNodes_mem config nodes healthinessFactor wl err wn h hwn
  obtain ⟨-, -, -, hw⟩ := entry_some config healthinessFactor wn.Node wn hentry
  have hW : wn.Weight = add64 (add64 (cpuScoreOf config wn.Node) (memoryScoreOf config wn.Node))
      (mul64 healthinessFactor wn.Node.HealthIndicator) := by
    conv_lhs => rw [hw]
  rw [hW]
  unfold cpuScoreOf memoryScoreOf
  by_cases hc : config.CpuShares ≤ 0 <;> by_cases hm : config.Memory ≤ 0
  · rw [if_pos hc, if_pos hm, if_neg (by omega), if_neg (by omega)]
  · rw [if_pos hc, if_neg hm, if_neg (by omega), if_pos (by omega)]
  · rw [if_neg hc, if_pos hm, if_pos (by omega), if_neg (by omega)]
  · rw [if_neg hc, if_neg hm, if_pos (by omega), if_pos (by omega)]

/-- C10, amended, at the spec's scoring example: totalCpu 10, usedCpu 2, totalMemory
100, usedMemory 20, health 0, request of 2 CPU shares and 10 of memory: cpuScore 40,
memoryScore 30, weight 70. -/
theorem kept_node_weight_witness :
    weighNodes scoredRequest [scoredNode] 0 = some ([⟨scoredNode, 70⟩], none) ∧
    cpuScoreOf scoredRequest scoredNode = 40 ∧
    memoryScoreOf scoredRequest scoredNode = 30 ∧
    (70 : Int) =
      add64
        (add64
          (if scoredRequest.CpuShares ≤ 0 then 100
           else wrapInt64 (Int.tdiv (mul64 (add64 scoredNode.UsedCpus scoredRequest.CpuShares)
             100) scoredNode.TotalCpus))
          (if scoredRequest.Memory ≤ 0 then 100
           else wrapInt64 (Int.tdiv (mul64 (add64 scoredNode.UsedMemory scoredRequest.Memory)
             100) scoredNode.TotalMemory)))
        (mul64 0 scoredNode.HealthIndicator) :=
  ⟨by decide, by decide, by decide,
    kept_node_weight scoredRequest [scoredNode] 0 [⟨scoredNode, 70⟩] none ⟨scoredNode, 70⟩
      (by decide) (by decide)⟩

/-! ## The weighted strategy: feasibility, errors, order -/

theorem entry_eq_feasible (config : ContainerConfig) (hf : Int) (node : Node) :
    weighNodes.entry config hf node =
      if feasible config node then
        some ⟨node, add64 (add64 (cpuScoreOf config node) (memoryScoreOf config node))
          (mul64 hf node.HealthIndicator)⟩
      else none := rfl

theorem entry_isSome (config : ContainerConfig) (hf : Int) (node : Node) :
    (weighNodes.entry config hf node).isSome = feasible config node := by
  rw [entry_eq_feasible]
  split <;> simp_all

/-- The nodes of the entries are the feasible nodes, in input order. -/
theorem filterMap_entry_nodes (config : ContainerConfig) (hf : Int) (nodes : List Node) :
    (nodes.filterMap (weighNodes.entry config hf)).map weightedNode.Node =
      nodes.filter (feasible config) := by
  induction nodes with
  | nil => rfl
  | cons node rest ih =>
    by_cases h : feasible config node = true
    · simp [List.filterMap_cons, List.filter_cons, entry_eq_feasible, h, ih]
    · simp [List.filterMap_cons, List.filter_cons, entry_eq_feasible, h, ih]

theorem filterMap_entry_eq_nil (config : ContainerConfig) (hf : Int) (nodes : List Node) :
    nodes.filterMap (weighNodes.entry config hf) = [] ↔
      ∀ node ∈ nodes, feasible config node = false := by
  rw [← List.map_eq_nil_iff (f := weightedNode.Node), filterMap_entry_nodes,
    List.filter_eq_nil_iff]
  simp

/-- C11: a node whose total CPU or total memory is below the request's requirement
never appears in the output of `weighNodes`, whatever its usage, its health indicator,
the healthiness factor and the other nodes of the list; and `weighNodes` does return. -/
theorem undersized_node_excluded (config : ContainerConfig) (nodes : List Node)
    (healthinessFactor : Int) (node : Node)
    (hsmall : node.TotalCpus < config.CpuShares ∨ node.TotalMemory < config.Memory) :
    ∃ wl err, weighNodes config nodes healthinessFactor = some (wl, err) ∧
      ∀ wn ∈ wl, wn.Node ≠ node := by
  rcases hW : weighNodes config nodes healthinessFactor with _ | ⟨wl, err⟩
  · exact absurd hW (weighNodes_ne_none config nodes healthinessFactor)
  · refine ⟨wl, err, rfl, ?_⟩
    intro wn hwn heq
    obtain ⟨-, hentry⟩ := weighNodes_mem config nodes healthinessFactor wl err wn hW hwn
    obtain ⟨hlarge, -, -, -⟩ := entry_some config healthinessFactor wn.Node wn hentry
    rw [heq] at hlarge
    unfold largeEnough at hlarge
    simp only [Bool.not_eq_true', Bool.or_eq_false_iff, decide_eq_false_iff_not] at hlarge
    omega

/-- C11, on a list with a node of total memory 1 next to node B, for a request of 10 of
memory: only node B is returned. -/
theorem undersized_node_excluded_witness :
    (smallEast.TotalCpus < memoryRequest.CpuShares ∨
      smallEast.TotalMemory < memoryRequest.Memory) ∧
    weighNodes memoryRequest [smallEast, nodeB] 0 = some ([⟨nodeB, 110⟩], none) ∧
    ∃ wl err, weighNodes memoryRequest [smallEast, nodeB] 0 = some (wl, err) ∧
      ∀ wn ∈ wl, wn.Node ≠ smallEast :=
  ⟨by decide, by decide,
    undersized_node_excluded memoryRequest [smallEast, nodeB] 0 smallEast (by decide)⟩

/-- C12: `weighNodes` returns `ErrNoResourcesAvailable` with a nil list if and only if
no input node passes the feasibility check, which covers the empty input list and the
lists whose nodes all have a total memory below the requirement; otherwise it returns a
non-empty list and no error. -/
theorem weighNodes_error_iff_none_feasible (config : ContainerConfig) (nodes : List Node)
    (healthinessFactor : Int) :
    (weighNodes config nodes healthinessFactor = some ([], some ErrNoResourcesAvailable) ↔
      ∀ node ∈ nodes, feasible config node = false) ∧
    ((∃ node ∈ nodes, feasible config node = true) →
      ∃ wl, wl ≠ [] ∧ weighNodes config nodes healthinessFactor = some (wl, none)) ∧
    (nodes = [] →
      weighNodes config nodes healthinessFactor = some ([], some ErrNoResourcesAvailable)) ∧
    ((∀ node ∈ nodes, node.TotalMemory < config.Memory) →
      weighNodes config nodes healthinessFactor = some ([], some ErrNoResourcesAvailable)) := by
  have hiff : weighNodes config nodes healthinessFactor =
      some ([], some ErrNoResourcesAvailable) ↔
      ∀ node ∈ nodes, feasible config node = false := by
    rw [weighNodes_eq, ← filterMap_entry_eq_nil config healthinessFactor nodes]
    constructor
    · intro h
      split at h
      · assumption
      · simp at h
    · intro h
      rw [if_pos h]
  refine ⟨hiff, ?_, ?_, ?_⟩
  · rintro ⟨node, hn, hfe⟩
    have hne : nodes.filterMap (weighNodes.entry config healthinessFactor) ≠ [] := by
      intro h
      have := (filterMap_entry_eq_nil config healthinessFactor nodes).1 h node hn
      rw [hfe] at this
      exact Bool.noConfusion this
    exact ⟨_, hne, by rw [weighNodes_eq, if_neg hne]⟩
  · intro hnil
    apply hiff.2
    rw [hnil]
    intro node hn
    simp at hn
  · intro hall
    apply hiff.2
    intro node hn
    have := hall node hn
    unfold feasible largeEnough
    simp [this]

/-- C12, on three inputs: the empty list, a list whose only node has too little
memory, and a list with a feasible node. -/
theorem weighNodes_error_iff_none_feasible_witness :
    weighNodes memoryRequest [] 0 = some ([], some ErrNoResourcesAvailable) ∧
    weighNodes memoryRequest [smallEast] 0 = some ([], some ErrNoResourcesAvailable) ∧
    ∃ wl, wl ≠ [] ∧ weighNodes memoryRequest [smallEast, nodeB] 0 = some (wl, none) :=
  ⟨(weighNodes_error_iff_none_feasible memoryRequest [] 0).2.2.1 rfl,
    (weighNodes_error_iff_none_feasible memoryRequest [smallEast] 0).2.2.2 (by decide),
    (weighNodes_error_iff_none_feasible memoryRequest [smallEast, nodeB] 0).2.1
      ⟨nodeB, by decide, by decide⟩⟩

theorem Less_iff (a b : weightedNode) :
    weightedNodeList.Less a b = true ↔
      a.Weight < b.Weight ∨
        (a.Weight = b.Weight ∧ a.Node.Containers.length < b.Node.Containers.length) := by
  unfold weightedNodeList.Less
  by_cases h : a.Weight = b.Weight
  · rw [if_pos h, decide_eq_true_eq]
    constructor
    · intro hl
      exact Or.inr ⟨h, hl⟩
    · rintro (hl | ⟨-, hl⟩)
      · omega
      · exact hl
  · rw [if_neg h, decide_eq_true_eq]
    constructor
    · intro hl
      exact Or.inl hl
    · rintro (hl | ⟨he, -⟩)
      · exact hl
      · exact absurd he h

/-- C13: `weightedNodeList.Less` orders by ascending Weight, ties broken by ascending
number of assigned containers. Of two entries of equal weight the one with more
containers is never less than the one with fewer, and `Less` is a strict weak order:
irreflexive, asymmetric, transitive, with transitive incomparability. -/
theorem Less_strict_weak_order :
    (∀ a b : weightedNode, weightedNodeList.Less a b = true ↔
      a.Weight < b.Weight ∨
        (a.Weight = b.Weight ∧ a.Node.Containers.length < b.Node.Containers.length)) ∧
    (∀ a b : weightedNode, a.Weight = b.Weight →
      a.Node.Containers.length < b.Node.Containers.length →
      weightedNodeList.Less b a = false) ∧
    (∀ a : weightedNode, weightedNodeList.Less a a = false) ∧
    (∀ a b : weightedNode, weightedNodeList.Less a b = true →
      weightedNodeList.Less b a = false) ∧
    (∀ a b c : weightedNode, weightedNodeList.Less a b = true →
      weightedNodeList.Less b c = true → weightedNodeList.Less a c = true) ∧
    (∀ a b c : weightedNode,
      weightedNodeList.Less a b = false → weightedNodeList.Less b a = false →
      weightedNodeList.Less b c = false → weightedNodeList.Less c b = false →
      weightedNodeList.Less a c = false ∧ weightedNodeList.Less c a = false) := by
  have hf : ∀ a b : weightedNode, weightedNodeList.Less a b = false ↔
      ¬ (a.Weight < b.Weight ∨
        (a.Weight = b.Weight ∧ a.Node.Containers.length < b.Node.Containers.length)) := by
    intro a b
    rw [← Less_iff, Bool.not_eq_true]
  refine ⟨Less_iff, ?_, ?_, ?_, ?_, ?_⟩
  · intro a b hw hl
    rw [hf]
    omega
  · intro a
    rw [hf]
    omega
  · intro a b hab
    rw [Less_iff] at hab
    rw [hf]
    omega
  · intro a b c hab hbc
    rw [Less_iff] at hab hbc ⊢
    omega
  · intro a b c hab hba hbc hcb
    rw [hf] at hab hba hbc hcb
    rw [hf, hf]
    omega

/-- C13, on node A idle and node A with one container, at equal weight 200: the idle
one is less, the busy one is not. -/
theorem Less_strict_weak_order_witness :
    weightedNodeList.Less ⟨nodeA, 200⟩ ⟨busyNodeA, 200⟩ = true ∧
    weightedNodeList.Less ⟨busyNodeA, 200⟩ ⟨nodeA, 200⟩ = false :=
  ⟨(Less_strict_weak_order.1 ⟨nodeA, 200⟩ ⟨busyNodeA, 200⟩).2 (Or.inr ⟨rfl, by decide⟩),
    Less_strict_weak_order.2.1 ⟨nodeA, 200⟩ ⟨busyNodeA, 200⟩ rfl (by decide)⟩

/-! ## The constraint filter: listing, order, relaxation -/

/-- A successful `Filter` has parsed the expressions and returns the survivors of the
applied constraints. -/
theorem Filter_ok (lib : ExprLib) (config : ContainerConfig) (nodes res : List Node)
    (soft : Bool) (h : ConstraintFilter.Filter lib config nodes soft = (res, none)) :
    ∃ cs, lib.parseExprs config.Constraints = (cs, none) ∧
      res = survivors lib (appliedConstraints soft cs) nodes := by
  rcases hp : lib.parseExprs config.Constraints with ⟨cs, _ | err⟩
  · refine ⟨cs, rfl, ?_⟩
    rw [Filter_of_parse lib config nodes soft cs hp, narrow_applied] at h
    rcases narrow_true_cases lib (appliedConstraints soft cs) nodes with hok | ⟨c, -, herr⟩
    · rw [hok] at h
      simp only [Prod.mk.injEq, and_true] at h
      exact h.symm
    · rw [herr] at h
      simp at h
  · simp [ConstraintFilter.Filter, hp] at h

/-- With every constraint applied, the loop succeeds exactly when there is nothing to
apply or a node survives everything. -/
theorem narrow_true_ok_iff (lib : ExprLib) (cs : List expr) (nodes : List Node) :
    (ConstraintFilter.narrow lib cs nodes true).2 = none ↔
      cs = [] ∨ survivors lib cs nodes ≠ [] := by
  constructor
  · intro h
    rcases narrow_true_cases lib cs nodes with hok | ⟨c, -, herr⟩
    · by_cases hcs : cs = []
      · exact Or.inl hcs
      · exact Or.inr (narrow_true_ok_ne_nil lib cs nodes _ hcs hok)
    · rw [herr] at h
      simp at h
  · rintro (hcs | hne)
    · rw [hcs]
      rfl
    · rw [narrow_true_of_survivors lib cs nodes hne]

/-- A successful loop returns the survivors. -/
theorem narrow_true_ok_eq (lib : ExprLib) (cs : List expr) (nodes : List Node)
    (h : (ConstraintFilter.narrow lib cs nodes true).2 = none) :
    ConstraintFilter.narrow lib cs nodes true = (survivors lib cs nodes, none) := by
  rcases narrow_true_cases lib cs nodes with hok | ⟨c, -, herr⟩
  · exact hok
  · rw [herr] at h
    simp at h

theorem satisfiesAll_iff (lib : ExprLib) (cs : List expr) (node : Node) :
    satisfiesAll lib cs node = true ↔
      ∀ c ∈ cs, ConstraintFilter.nodeMatches lib c node = true := by
  unfold satisfiesAll
  rw [List.all_eq_true]
  rfl

theorem satisfiesAll_perm (lib : ExprLib) (cs ds : List expr) (node : Node)
    (h : cs.Perm ds) : satisfiesAll lib cs node = satisfiesAll lib ds node := by
  rw [Bool.eq_iff_iff, satisfiesAll_iff, satisfiesAll_iff]
  constructor
  · intro hall c hc
    exact hall c (h.mem_iff.2 hc)
  · intro hall c hc
    exact hall c (h.mem_iff.1 hc)

theorem satisfiesAll_of_subset (lib : ExprLib) (cs ds : List expr) (node : Node)
    (hsub : ∀ c ∈ ds, c ∈ cs) (h : satisfiesAll lib cs node = true) :
    satisfiesAll lib ds node = true := by
  rw [satisfiesAll_iff] at h ⊢
  intro c hc
  exact h c (hsub c hc)

theorem hardConstraints_subset (cs : List expr) : ∀ c ∈ hardConstraints cs, c ∈ cs := by
  intro c hc
  unfold hardConstraints at hc
  exact (List.mem_filter.1 hc).1

/-- C15: `GetFilters` is a non-evaluating listing. It fails exactly when parsing the
request's constraint expressions fails, with the parse error, which is also what
`Filter` then returns for every node list; otherwise it returns, in expression order,
one string key+operator+value per parsed constraint, hard and soft alike. No node list
enters it. -/
theorem GetFilters_lists_constraints (lib : ExprLib) (config : ContainerConfig) :
    ((ConstraintFilter.GetFilters lib config).2 ≠ none ↔
      (lib.parseExprs config.Constraints).2 ≠ none) ∧
    ((lib.parseExprs config.Constraints).2 ≠ none →
      ConstraintFilter.GetFilters lib config = ([], (lib.parseExprs config.Constraints).2) ∧
      ∀ (nodes : List Node) (soft : Bool),
        ConstraintFilter.Filter lib config nodes soft =
          ([], (lib.parseExprs config.Constraints).2)) ∧
    ((lib.parseExprs config.Constraints).2 = none →
      ConstraintFilter.GetFilters lib config =
        ((lib.parseExprs config.Constraints).1.map
          (fun c => c.key ++ OPERATORS c.operator ++ c.value), none)) := by
  unfold ConstraintFilter.GetFilters ConstraintFilter.Filter
  rcases hp : lib.parseExprs config.Constraints with ⟨cs, _ | err⟩
  · refine ⟨by simp, by simp, ?_⟩
    intro _
    rfl
  · refine ⟨by simp, ?_, by simp⟩
    intro _
    exact ⟨rfl, fun _ _ => rfl⟩

/-- C15, on a request that parses, with a hard and a soft constraint, and on a request
that does not parse. -/
theorem GetFilters_lists_constraints_witness :
    ConstraintFilter.GetFilters specLib (requestWith ["zone==east", "rack==~5"]) =
      (["zone==east", "rack==5"], none) ∧
    (ConstraintFilter.GetFilters specLib (requestWith ["zone"]) =
        ([], (specLib.parseExprs (requestWith ["zone"]).Constraints).2) ∧
      ∀ (nodes : List Node) (soft : Bool),
        ConstraintFilter.Filter specLib (requestWith ["zone"]) nodes soft =
          ([], (specLib.parseExprs (requestWith ["zone"]).Constraints).2)) :=
  ⟨((GetFilters_lists_constraints specLib
      (requestWith ["zone==east", "rack==~5"])).2.2 (by decide)).trans (by decide),
    (GetFilters_lists_constraints specLib (requestWith ["zone"])).2.1 (by decide)⟩

/-- C16: constraint order affects only the reported error. For two requests whose
parsed constraint lists are permutations of each other, `ConstraintFilter.Filter`
succeeds on one iff it succeeds on the other, and when it succeeds both calls return the
same node list in the same order. -/
theorem Filter_order_irrelevant (lib : ExprLib) (config config2 : ContainerConfig)
    (nodes : List Node) (soft : Bool) (cs cs2 : List expr)
    (hparse : lib.parseExprs config.Constraints = (cs, none))
    (hparse2 : lib.parseExprs config2.Constraints = (cs2, none))
    (hperm : cs.Perm cs2) :
    ((ConstraintFilter.Filter lib config nodes soft).2 = none ↔
      (ConstraintFilter.Filter lib config2 nodes soft).2 = none) ∧
    ((ConstraintFilter.Filter lib config nodes soft).2 = none →
      ConstraintFilter.Filter lib config nodes soft =
        ConstraintFilter.Filter lib config2 nodes soft) := by
  rw [Filter_of_parse lib config nodes soft cs hparse,
    Filter_of_parse lib config2 nodes soft cs2 hparse2, narrow_applied lib cs,
    narrow_applied lib cs2]
  have hp : (appliedConstraints soft cs).Perm (appliedConstraints soft cs2) :=
    List.Perm.filter _ hperm
  have hsurv : survivors lib (appliedConstraints soft cs) nodes =
      survivors lib (appliedConstraints soft cs2) nodes := by
    unfold survivors
    congr 1
    funext n
    exact satisfiesAll_perm lib _ _ n hp
  have hnil : appliedConstraints soft cs = [] ↔ appliedConstraints soft cs2 = [] := by
    constructor
    · intro h
      rw [h] at hp
      exact (List.Perm.nil_eq hp).symm
    · intro h
      rw [h] at hp
      exact List.Perm.eq_nil hp
  have hiff : (ConstraintFilter.narrow lib (appliedConstraints soft cs) nodes true).2 = none ↔
      (ConstraintFilter.narrow lib (appliedConstraints soft cs2) nodes true).2 = none := by
    rw [narrow_true_ok_iff, narrow_true_ok_iff, hsurv, hnil]
  refine ⟨hiff, ?_⟩
  intro h
  rw [narrow_true_ok_eq lib _ nodes h, narrow_true_ok_eq lib _ nodes (hiff.1 h), hsurv]

/-- C16, on the spec's nodes with the two constraints in either order: both orders
fail when soft constraints are enforced, with different messages, and both return node A
when they are not. -/
theorem Filter_order_irrelevant_witness :
    (ConstraintFilter.Filter specLib (requestWith ["zone==east", "rack==~5"])
        [nodeA, nodeB] false =
      ConstraintFilter.Filter specLib (requestWith ["rack==~5", "zone==east"])
        [nodeA, nodeB] false) ∧
    ConstraintFilter.Filter specLib (requestWith ["rack==~5", "zone==east"])
        [nodeA, nodeB] false = ([nodeA], none) ∧
    ((ConstraintFilter.Filter specLib (requestWith ["zone==west", "rack==~5"])
        [nodeA] true).2 = none ↔
      (ConstraintFilter.Filter specLib (requestWith ["rack==~5", "zone==west"])
        [nodeA] true).2 = none) ∧
    ConstraintFilter.Filter specLib (requestWith ["zone==west", "rack==~5"]) [nodeA] true ≠
      ConstraintFilter.Filter specLib (requestWith ["rack==~5", "zone==west"]) [nodeA] true :=
  ⟨(Filter_order_irrelevant specLib (requestWith ["zone==east", "rack==~5"])
      (requestWith ["rack==~5", "zone==east"]) [nodeA, nodeB] false
      [⟨"zone", Operator.EQ, "east", false⟩, ⟨"rack", Operator.EQ, "5", true⟩]
      [⟨"rack", Operator.EQ, "5", true⟩, ⟨"zone", Operator.EQ, "east", false⟩]
      rfl rfl (List.Perm.swap _ _ [])).2 (by decide),
    by decide,
    (Filter_order_irrelevant specLib (requestWith ["zone==west", "rack==~5"])
      (requestWith ["rack==~5", "zone==west"]) [nodeA] true
      [⟨"zone", Operator.EQ, "west", false⟩, ⟨"rack", Operator.EQ, "5", true⟩]
      [⟨"rack", Operator.EQ, "5", true⟩, ⟨"zone", Operator.EQ, "west", false⟩]
      rfl rfl (List.Perm.swap _ _ [])).1,
    by decide⟩

/-- C18: relaxation only widens the candidate set. If `ConstraintFilter.Filter` with
soft constraints enforced succeeds with list `S`, then `Filter` without them, on the
same inputs, succeeds too, with a list of which `S` is a sublist. -/
theorem relaxation_only_widens (lib : ExprLib) (config : ContainerConfig)
    (nodes S : List Node)
    (h : ConstraintFilter.Filter lib config nodes true = (S, none)) :
    ∃ S2, ConstraintFilter.Filter lib config nodes false = (S2, none) ∧ S.Sublist S2 := by
  obtain ⟨cs, hparse, hS⟩ := Filter_ok lib config nodes S true h
  rw [appliedConstraints_true] at hS
  have hstrict : ConstraintFilter.narrow lib cs nodes true = (S, none) := by
    rw [← Filter_of_parse lib config nodes true cs hparse]
    exact h
  refine ⟨survivors lib (hardConstraints cs) nodes, ?_, ?_⟩
  · rw [Filter_of_parse lib config nodes false cs hparse, narrow_applied,
      appliedConstraints_false]
    apply narrow_true_ok_eq
    rw [narrow_true_ok_iff]
    by_cases hhard : hardConstraints cs = []
    · exact Or.inl hhard
    · right
      have hcs : cs ≠ [] := by
        intro hnil
        apply hhard
        rw [hnil]
        rfl
      have hSne : S ≠ [] := narrow_true_ok_ne_nil lib cs nodes S hcs hstrict
      obtain ⟨n, hn⟩ := List.exists_mem_of_ne_nil _ hSne
      rw [hS] at hn
      simp only [survivors, List.mem_filter] at hn
      apply List.ne_nil_of_mem (a := n)
      simp only [survivors, List.mem_filter]
      exact ⟨hn.1, satisfiesAll_of_subset lib cs _ n (hardConstraints_subset cs) hn.2⟩
  · have heq : S = (survivors lib (hardConstraints cs) nodes).filter (satisfiesAll lib cs) := by
      rw [hS]
      unfold survivors
      rw [List.filter_filter]
      apply List.filter_congr
      intro n _
      by_cases hall : satisfiesAll lib cs n = true
      · rw [hall, satisfiesAll_of_subset lib cs _ n (hardConstraints_subset cs) hall]
        rfl
      · have : satisfiesAll lib cs n = false := by simpa using hall
        rw [this]
        rfl
    rw [heq]
    exact List.filter_sublist _

/-- C18, on nodes A and B with the soft constraint `zone==east`: the strict filter
keeps A, the relaxed one keeps A and B. -/
theorem relaxation_only_widens_witness :
    ConstraintFilter.Filter specLib (requestWith ["zone==~east"]) [nodeA, nodeB] true =
      ([nodeA], none) ∧
    ConstraintFilter.Filter specLib (requestWith ["zone==~east"]) [nodeA, nodeB] false =
      ([nodeA, nodeB], none) ∧
    ∃ S2, ConstraintFilter.Filter specLib (requestWith ["zone==~east"]) [nodeA, nodeB] false =
      (S2, none) ∧ [nodeA].Sublist S2 :=
  ⟨by decide, by decide,
    relaxation_only_widens specLib (requestWith ["zone==~east"]) [nodeA, nodeB] [nodeA]
      (by decide)⟩

/-! ## The scheduler: empty results, hard constraints -/

theorem ApplyFilters_cons_ok (f : Filter) (rest : List Filter) (config : ContainerConfig)
    (nodes acc : List Node) (soft : Bool)
    (h : ApplyFilters (f :: rest) config nodes soft = (acc, none)) :
    ∃ mid, f.Filter config nodes soft = (mid, none) ∧
      ApplyFilters rest config mid soft = (acc, none) := by
  rw [ApplyFilters] at h
  rcases hF : f.Filter config nodes soft with ⟨mid, _ | err⟩
  · rw [hF] at h
    exact ⟨mid, rfl, h⟩
  · rw [hF] at h
    simp at h

theorem ApplyFilters_append_ok (pre post : List Filter) (config : ContainerConfig)
    (nodes acc : List Node) (soft : Bool)
    (h : ApplyFilters (pre ++ post) config nodes soft = (acc, none)) :
    ∃ mid, ApplyFilters pre config nodes soft = (mid, none) ∧
      ApplyFilters post config mid soft = (acc, none) := by
  induction pre generalizing nodes with
  | nil => exact ⟨nodes, rfl, h⟩
  | cons f rest ih =>
    obtain ⟨m1, hf, hrest⟩ := ApplyFilters_cons_ok f (rest ++ post) config nodes acc soft h
    obtain ⟨mid, hpre, hpost⟩ := ih m1 hrest
    refine ⟨mid, ?_, hpost⟩
    rw [ApplyFilters, hf]
    exact hpre

/-- A chain of narrowing filters returns only nodes it was given. -/
theorem ApplyFilters_narrows (filters : List Filter) (config : ContainerConfig)
    (nodes acc : List Node) (soft : Bool) (hn : ∀ f ∈ filters, f.narrows)
    (h : ApplyFilters filters config nodes soft = (acc, none)) :
    ∀ node ∈ acc, node ∈ nodes := by
  induction filters generalizing nodes with
  | nil =>
    simp only [ApplyFilters, Prod.mk.injEq, and_true] at h
    rw [h]
    exact fun _ hx => hx
  | cons f rest ih =>
    obtain ⟨mid, hf, hrest⟩ := ApplyFilters_cons_ok f rest config nodes acc soft h
    intro node hnode
    have hmid := ih mid (fun g hg => hn g (List.mem_cons_of_mem _ hg)) hrest node hnode
    have := hn f (List.mem_cons_self _ _) config nodes soft (by rw [hf])
    rw [hf] at this
    exact this node hmid

/-- One pass of a scheduler never succeeds on an empty set of accepted nodes. -/
theorem selectNodes_ok (s : Scheduler) (nodes res : List Node) (config : ContainerConfig)
    (soft : Bool) (h : s.selectNodesForContainer nodes config soft = (res, none)) :
    ∃ acc, acc ≠ [] ∧ ApplyFilters s.filters config nodes soft = (acc, none) ∧
      s.strategy.RankAndSort config acc = (res, none) := by
  unfold Scheduler.selectNodesForContainer at h
  rcases hA : ApplyFilters s.filters config nodes soft with ⟨acc, _ | err⟩
  · rw [hA] at h
    by_cases hacc : acc = []
    · subst hacc
      simp at h
    · refine ⟨acc, hacc, rfl, ?_⟩
      simpa [hacc] using h
  · rw [hA] at h
    simp at h

theorem selectNodes_of_chain_empty (s : Scheduler) (nodes : List Node)
    (config : ContainerConfig) (soft : Bool)
    (h : ApplyFilters s.filters config nodes soft = ([], none)) :
    s.selectNodesForContainer nodes config soft = ([], some errNoNodeAvailable) := by
  unfold Scheduler.selectNodesForContainer
  rw [h]
  rfl

theorem selectNodes_error_nodes (s : Scheduler) (nodes : List Node)
    (config : ContainerConfig) (soft : Bool)
    (h : ¬ ∃ acc, acc ≠ [] ∧ ApplyFilters s.filters config nodes soft = (acc, none)) :
    ∃ err, s.selectNodesForContainer nodes config soft = ([], some err) := by
  unfold Scheduler.selectNodesForContainer
  rcases hA : ApplyFilters s.filters config nodes soft with ⟨acc, _ | err⟩
  · by_cases hacc : acc = []
    · subst hacc
      exact ⟨errNoNodeAvailable, rfl⟩
    · exact absurd ⟨acc, hacc, hA⟩ h
  · exact ⟨err, rfl⟩

/-- C14: an empty filter result is a failure. In either pass, when the filter chain
returns no error and no node, `selectNodesForContainer` returns the error "No nodes
available in the cluster" and no node, whatever the strategy is; so with filters that
only exclude nodes, `SelectNodesForContainer` on an empty node list never succeeds. -/
theorem empty_filter_result_is_failure (s : Scheduler) (config : ContainerConfig) :
    (∀ (nodes : List Node) (soft : Bool),
      ApplyFilters s.filters config nodes soft = ([], none) →
      s.selectNodesForContainer nodes config soft =
        ([], some ⟨"No nodes available in the cluster"⟩) ∧
      ∀ strategy : PlacementStrategy,
        Scheduler.selectNodesForContainer ⟨strategy, s.filters⟩ nodes config soft =
          ([], some ⟨"No nodes available in the cluster"⟩)) ∧
    ((∀ f ∈ s.filters, f.narrows) →
      (s.SelectNodesForContainer [] config).1 = [] ∧
      (s.SelectNodesForContainer [] config).2 ≠ none) := by
  constructor
  · intro nodes soft h
    exact ⟨selectNodes_of_chain_empty s nodes config soft h,
      fun strategy => selectNodes_of_chain_empty ⟨strategy, s.filters⟩ nodes config soft h⟩
  · intro hn
    have hpass : ∀ soft : Bool, ∃ err,
        s.selectNodesForContainer [] config soft = ([], some err) := by
      intro soft
      apply selectNodes_error_nodes
      rintro ⟨acc, hacc, hA⟩
      obtain ⟨n, hmem⟩ := List.exists_mem_of_ne_nil _ hacc
      have := ApplyFilters_narrows s.filters config [] acc soft hn hA n hmem
      simp at this
    obtain ⟨e1, h1⟩ := hpass true
    obtain ⟨e2, h2⟩ := hpass false
    rw [Select_of_strict_error s [] config (by rw [h1]; simp), h2]
    simp

/-- The constraint filter only excludes nodes. -/
theorem constraintFilter_narrows (lib : ExprLib) : (constraintFilter lib).narrows := by
  intro config nodes soft hnone node hnode
  have hnone2 : (ConstraintFilter.Filter lib config nodes soft).2 = none := hnone
  have hF : ConstraintFilter.Filter lib config nodes soft =
      ((ConstraintFilter.Filter lib config nodes soft).1, none) := by
    rw [← hnone2]
  obtain ⟨cs, -, hres⟩ := Filter_ok lib config nodes _ soft hF
  have hnode2 : node ∈ (ConstraintFilter.Filter lib config nodes soft).1 := hnode
  rw [hres] at hnode2
  simp only [survivors, List.mem_filter] at hnode2
  exact hnode2.1

/-- C14, on the example scheduler: with no node and no constraint the chain returns the
empty set without error, each pass answers "No nodes available in the cluster", and so
does the call. -/
theorem empty_filter_result_is_failure_witness :
    ApplyFilters exampleScheduler.filters (requestWith []) [] true = ([], none) ∧
    exampleScheduler.selectNodesForContainer [] (requestWith []) true =
      ([], some ⟨"No nodes available in the cluster"⟩) ∧
    ((exampleScheduler.SelectNodesForContainer [] (requestWith [])).1 = [] ∧
      (exampleScheduler.SelectNodesForContainer [] (requestWith [])).2 ≠ none) ∧
    exampleScheduler.SelectNodesForContainer [] (requestWith []) =
      ([], some errNoNodeAvailable) :=
  ⟨by decide,
    ((empty_filter_result_is_failure exampleScheduler (requestWith [])).1 [] true
      (by decide)).1,
    (empty_filter_result_is_failure exampleScheduler (requestWith [])).2
      (by
        intro f hf
        have : f = constraintFilter specLib := by simpa [exampleScheduler] using hf
        rw [this]
        exact constraintFilter_narrows specLib),
    by decide⟩

/-- One pass of a scheduler whose chain holds the constraint filter, followed by
narrowing filters only, and whose strategy returns only nodes it was given: every node
of a successful result satisfies the applied constraints. -/
theorem selectNodes_sound (lib : ExprLib) (s : Scheduler) (pre post : List Filter)
    (nodes res : List Node) (config : ContainerConfig) (soft : Bool)
    (hchain : s.filters = pre ++ constraintFilter lib :: post)
    (hpost : ∀ f ∈ post, f.narrows)
    (hstrategy : ∀ (c : ContainerConfig) (ns : List Node),
      ∀ n ∈ (s.strategy.RankAndSort c ns).1, n ∈ ns)
    (h : s.selectNodesForContainer nodes config soft = (res, none)) :
    (lib.parseExprs config.Constraints).2 = none ∧
      ∀ n ∈ res, satisfiesAll lib
        (appliedConstraints soft (lib.parseExprs config.Constraints).1) n = true := by
  obtain ⟨acc, -, hA, hR⟩ := selectNodes_ok s nodes res config soft h
  rw [hchain] at hA
  obtain ⟨m1, -, hA2⟩ := ApplyFilters_append_ok pre _ config nodes acc soft hA
  obtain ⟨m2, hF, hA3⟩ := ApplyFilters_cons_ok _ post config m1 acc soft hA2
  have hF2 : ConstraintFilter.Filter lib config m1 soft = (m2, none) := hF
  obtain ⟨cs, hparse, hm2⟩ := Filter_ok lib config m1 m2 soft hF2
  rw [hparse]
  refine ⟨rfl, ?_⟩
  intro n hn
  have hn1 : n ∈ acc := by
    have := hstrategy config acc n
    rw [hR] at this
    exact this hn
  have hn2 : n ∈ m2 := ApplyFilters_narrows post config m2 acc soft hpost hA3 n hn1
  rw [hm2] at hn2
  simp only [survivors, List.mem_filter] at hn2
  exact hn2.2

/-- C17: hard constraints never yield. With the constraint filter in the chain, the
filters after it only excluding nodes, and a strategy whose output contains only nodes
of its input, every node in a successful result of `SelectNodesForContainer`, from the
strict or from the relaxed pass, satisfies every hard constraint of the request; and
when the strict pass is the one that succeeded, every returned node satisfies every
soft constraint as well. -/
theorem hard_constraints_never_yield (lib : ExprLib) (s : Scheduler)
    (pre post : List Filter) (nodes res : List Node) (config : ContainerConfig)
    (hchain : s.filters = pre ++ constraintFilter lib :: post)
    (hpost : ∀ f ∈ post, f.narrows)
    (hstrategy : ∀ (c : ContainerConfig) (ns : List Node),
      ∀ n ∈ (s.strategy.RankAndSort c ns).1, n ∈ ns)
    (hres : s.SelectNodesForContainer nodes config = (res, none)) :
    (lib.parseExprs config.Constraints).2 = none ∧
    (∀ n ∈ res, satisfiesAll lib
      (hardConstraints (lib.parseExprs config.Constraints).1) n = true) ∧
    ((s.selectNodesForContainer nodes config true).2 = none →
      ∀ n ∈ res, satisfiesAll lib (lib.parseExprs config.Constraints).1 n = true) := by
  have hstrictCase : (s.selectNodesForContainer nodes config true).2 = none →
      (lib.parseExprs config.Constraints).2 = none ∧
      ∀ n ∈ res, satisfiesAll lib (lib.parseExprs config.Constraints).1 n = true := by
    intro hok
    have hsel := Select_of_strict_ok s nodes config hok
    rw [hres] at hsel
    have := selectNodes_sound lib s pre post nodes res config true hchain hpost hstrategy
      hsel.symm
    rw [appliedConstraints_true] at this
    exact this
  by_cases hok : (s.selectNodesForContainer nodes config true).2 = none
  · obtain ⟨hp, hall⟩ := hstrictCase hok
    refine ⟨hp, ?_, fun _ => hall⟩
    intro n hn
    exact satisfiesAll_of_subset lib _ _ n (hardConstraints_subset _) (hall n hn)
  · have hsel := Select_of_strict_error s nodes config hok
    rw [hres] at hsel
    have := selectNodes_sound lib s pre post nodes res config false hchain hpost hstrategy
      hsel.symm
    rw [appliedConstraints_false] at this
    exact ⟨this.1, this.2, fun h => absurd h hok⟩

theorem mem_insertSorted (x y : weightedNode) (l : weightedNodeList) :
    y ∈ weightedNodeList.insertSorted x l ↔ y = x ∨ y ∈ l := by
  induction l with
  | nil => simp [weightedNodeList.insertSorted]
  | cons z zs ih =>
    unfold weightedNodeList.insertSorted
    split
    · simp
    · simp only [List.mem_cons, ih]
      tauto

theorem mem_sort (y : weightedNode) (l : weightedNodeList) :
    y ∈ weightedNodeList.sort l ↔ y ∈ l := by
  induction l with
  | nil => simp [weightedNodeList.sort]
  | cons x xs ih =>
    rw [weightedNodeList.sort, mem_insertSorted, ih, List.mem_cons]

/-- The weighted strategy returns only nodes it was given. -/
theorem weightedRankAndSort_mem (hf : Int) (config : ContainerConfig) (nodes : List Node) :
    ∀ n ∈ (weightedRankAndSort hf config nodes).1, n ∈ nodes := by
  intro n hn
  unfold weightedRankAndSort at hn
  rcases hW : weighNodes config nodes hf with _ | ⟨wl, _ | err⟩
  · rw [hW] at hn
    simp at hn
  · rw [hW] at hn
    simp only [List.mem_map] at hn
    obtain ⟨wn, hwn, rfl⟩ := hn
    rw [mem_sort] at hwn
    exact (weighNodes_mem config nodes hf wl none wn hW hwn).1
  · rw [hW] at hn
    simp at hn

/-- C17, at the spec's example, where the relaxed pass returns node A, which satisfies
the hard constraint `zone==east`; and with the soft constraint `zone==east` alone, where
the strict pass returns node A, which satisfies it. -/
theorem hard_constraints_never_yield_witness :
    exampleScheduler.SelectNodesForContainer [nodeA, nodeB]
        (requestWith ["zone==east", "rack==~5"]) = ([nodeA], none) ∧
    (∀ n ∈ [nodeA], satisfiesAll specLib (hardConstraints
      (specLib.parseExprs (requestWith ["zone==east", "rack==~5"]).Constraints).1) n = true) ∧
    exampleScheduler.SelectNodesForContainer [nodeA, nodeB]
        (requestWith ["zone==~east"]) = ([nodeA], none) ∧
    (∀ n ∈ [nodeA], satisfiesAll specLib
      (specLib.parseExprs (requestWith ["zone==~east"]).Constraints).1 n = true) :=
  ⟨by decide,
    (hard_constraints_never_yield specLib exampleScheduler [] [] [nodeA, nodeB] [nodeA]
      (requestWith ["zone==east", "rack==~5"]) rfl (by simp)
      (fun c ns => weightedRankAndSort_mem 0 c ns) (by decide)).2.1,
    by decide,
    (hard_constraints_never_yield specLib exampleScheduler [] [] [nodeA, nodeB] [nodeA]
      (requestWith ["zone==~east"]) rfl (by simp)
      (fun c ns => weightedRankAndSort_mem 0 c ns) (by decide)).2.2 (by decide)⟩

/-! ## The weighted strategy: divisions, shape of the result -/

/-- One turn of the scoring loop, for any division that is the `int64` division on
strictly positive divisors. -/
theorem scoreLoopWith_cons (dv : Int → Int → Option Int)
    (hdv : ∀ a b : Int, 0 < b → dv a b = div64 a b)
    (config : ContainerConfig) (hf : Int) (node : Node) (rest : List Node)
    (acc : weightedNodeList) :
    weighNodes.scoreLoopWith dv config hf (node :: rest) acc =
      weighNodes.scoreLoopWith dv config hf rest
        (acc ++ (weighNodes.entry config hf node).toList) := by
  rw [weighNodes.scoreLoopWith]
  unfold weighNodes.entry largeEnough cpuScoreOf memoryScoreOf
  by_cases hsmall : node.TotalMemory < config.Memory ∨ node.TotalCpus < config.CpuShares
  · have : (decide (node.TotalMemory < config.Memory) ||
        decide (node.TotalCpus < config.CpuShares)) = true := by simpa using hsmall
    simp [this]
  · have hb : (decide (node.TotalMemory < config.Memory) ||
        decide (node.TotalCpus < config.CpuShares)) = false := by simpa using hsmall
    have hm : config.Memory ≤ node.TotalMemory := by omega
    have hc : config.CpuShares ≤ node.TotalCpus := by omega
    simp only [hb, Bool.false_eq_true, if_false, Bool.not_false, Bool.true_and]
    by_cases hcpu : config.CpuShares > 0 <;> by_cases hmem : config.Memory > 0
    · rw [if_pos hcpu, if_pos hmem, if_pos hcpu, if_pos hmem,
        hdv _ _ (by omega), hdv _ _ (by omega),
        div64_of_pos _ _ (by omega), div64_of_pos _ _ (by omega)]
      simp only [Option.bind_eq_bind, Option.some_bind, Bool.and_eq_true, decide_eq_true_eq]
      split <;> simp
    · rw [if_pos hcpu, if_neg hmem, if_pos hcpu, if_neg hmem, hdv _ _ (by omega),
        div64_of_pos _ _ (by omega)]
      simp only [Option.bind_eq_bind, Option.some_bind, Bool.and_eq_true, decide_eq_true_eq]
      split <;> simp
    · rw [if_neg hcpu, if_pos hmem, if_neg hcpu, if_pos hmem, hdv _ _ (by omega),
        div64_of_pos _ _ (by omega)]
      simp only [Option.bind_eq_bind, Option.some_bind, Bool.and_eq_true, decide_eq_true_eq]
      split <;> simp
    · rw [if_neg hcpu, if_neg hmem, if_neg hcpu, if_neg hmem]
      simp only [Option.bind_eq_bind, Option.some_bind, Bool.and_eq_true, decide_eq_true_eq]
      split <;> simp

theorem scoreLoopWith_eq (dv : Int → Int → Option Int)
    (hdv : ∀ a b : Int, 0 < b → dv a b = div64 a b)
    (config : ContainerConfig) (hf : Int) (nodes : List Node) (acc : weightedNodeList) :
    weighNodes.scoreLoopWith dv config hf nodes acc =
      some (acc ++ nodes.filterMap (weighNodes.entry config hf)) := by
  induction nodes generalizing acc with
  | nil => simp [weighNodes.scoreLoopWith]
  | cons node rest ih =>
    rw [scoreLoopWith_cons dv hdv, ih]
    cases h : weighNodes.entry config hf node <;> simp [List.filterMap_cons, h]

theorem logLoopWith_eq (dv : Int → Int → Option Int)
    (hdv : ∀ a b : Int, 0 < b → dv a b = div64 a b)
    (config : ContainerConfig) (nodes : List Node) :
    weighNodes.logLoopWith dv config nodes = some () := by
  induction nodes with
  | nil => rfl
  | cons node rest ih =>
    rw [weighNodes.logLoopWith]
    by_cases hsmall : node.TotalMemory < config.Memory ∨ node.TotalCpus < config.CpuShares
    · have : (decide (node.TotalMemory < config.Memory) ||
          decide (node.TotalCpus < config.CpuShares)) = true := by simpa using hsmall
      simp [this, ih]
    · have hb : (decide (node.TotalMemory < config.Memory) ||
          decide (node.TotalCpus < config.CpuShares)) = false := by simpa using hsmall
      have hm : config.Memory ≤ node.TotalMemory := by omega
      have hc : config.CpuShares ≤ node.TotalCpus := by omega
      simp only [hb, Bool.false_eq_true, if_false]
      by_cases hcpu : config.CpuShares > 0 <;> by_cases hmem : config.Memory > 0
      · rw [if_pos hcpu, if_pos hmem, hdv _ _ (by omega), hdv _ _ (by omega),
          div64_of_pos _ _ (by omega), div64_of_pos _ _ (by omega)]
        simpa using ih
      · rw [if_pos hcpu, if_neg hmem, hdv _ _ (by omega), div64_of_pos _ _ (by omega)]
        simpa using ih
      · rw [if_neg hcpu, if_pos hmem, hdv _ _ (by omega), div64_of_pos _ _ (by omega)]
        simpa using ih
      · rw [if_neg hcpu, if_neg hmem]
        simpa using ih

/-- C19: `weighNodes` never divides by zero. Neither loop panics, for any request and
any node list, totals of zero or below included. Whenever a score is computed the
divisor is strictly positive: a node that passes the size test has a total at least as
large as a positive request, and replacing the division by any primitive that agrees
with it on strictly positive divisors only, whatever it does elsewhere, changes the
result of neither the scoring loop nor the logging loop. -/
theorem weighNodes_divisors_positive (config : ContainerConfig) (nodes : List Node)
    (healthinessFactor : Int) :
    (∀ acc, weighNodes.scoreLoop config healthinessFactor nodes acc ≠ none) ∧
    weighNodes.logLoop config nodes ≠ none ∧
    weighNodes config nodes healthinessFactor ≠ none ∧
    (∀ node ∈ nodes,
      ¬ (node.TotalMemory < config.Memory ∨ node.TotalCpus < config.CpuShares) →
      (0 < config.CpuShares → 0 < node.TotalCpus) ∧
      (0 < config.Memory → 0 < node.TotalMemory)) ∧
    (∀ dv : Int → Int → Option Int, (∀ a b : Int, 0 < b → dv a b = div64 a b) →
      (∀ acc, weighNodes.scoreLoopWith dv config healthinessFactor nodes acc =
        weighNodes.scoreLoop config healthinessFactor nodes acc) ∧
      weighNodes.logLoopWith dv config nodes = weighNodes.logLoop config nodes) := by
  refine ⟨?_, ?_, weighNodes_ne_none config nodes healthinessFactor, ?_, ?_⟩
  · intro acc
    rw [scoreLoop_eq]
    simp
  · rw [logLoop_eq]
    simp
  · intro node _ hsize
    constructor <;> intro hpos <;> omega
  · intro dv hdv
    constructor
    · intro acc
      rw [scoreLoopWith_eq dv hdv, scoreLoop_eq]
    · rw [logLoopWith_eq dv hdv, logLoop_eq]

/-- C19, on a list that holds a node of totals 0 and a node of total CPU 0 and total
memory -5: with a division that panics on every divisor that is not strictly positive,
both loops run as with the `int64` division. -/
theorem weighNodes_divisors_positive_witness :
    (∀ acc, weighNodes.scoreLoopWith div64Strict (cpuRequest 0) 0
        [zeroNode, emptyNode, nodeB] acc =
      weighNodes.scoreLoop (cpuRequest 0) 0 [zeroNode, emptyNode, nodeB] acc) ∧
    weighNodes.logLoopWith div64Strict memoryRequest [zeroNode, emptyNode] =
      weighNodes.logLoop memoryRequest [zeroNode, emptyNode] ∧
    weighNodes (cpuRequest 0) [zeroNode, emptyNode, nodeB] 0 =
      some ([⟨zeroNode, 200⟩, ⟨nodeB, 200⟩], none) ∧
    weighNodes memoryRequest [zeroNode, emptyNode] 0 =
      some ([], some ErrNoResourcesAvailable) :=
  ⟨((weighNodes_divisors_positive (cpuRequest 0) [zeroNode, emptyNode, nodeB] 0).2.2.2.2
      div64Strict
      (by
        intro a b hb
        unfold div64Strict div64
        rw [if_pos hb, if_neg (by omega)])).1,
    ((weighNodes_divisors_positive memoryRequest [zeroNode, emptyNode] 0).2.2.2.2
      div64Strict
      (by
        intro a b hb
        unfold div64Strict div64
        rw [if_pos hb, if_neg (by omega)])).2,
    by decide, by decide⟩

/-- C20: `weighNodes` is an order-preserving filter-and-map. On success, the nodes of
the returned weighted list are exactly the input nodes that are not undersized and have
cpuScore and memoryScore of at most 100, once per occurrence in the input and in the
input's relative order; the output is never longer than the input. -/
theorem weighNodes_filter_map (config : ContainerConfig) (nodes : List Node)
    (healthinessFactor : Int) (wl : weightedNodeList)
    (h : weighNodes config nodes healthinessFactor = some (wl, none)) :
    wl.map weightedNode.Node =
      nodes.filter (fun node =>
        !(decide (node.TotalMemory < config.Memory) ||
          decide (node.TotalCpus < config.CpuShares)) &&
        decide (cpuScoreOf config node ≤ 100) &&
        decide (memoryScoreOf config node ≤ 100)) ∧
    (wl.map weightedNode.Node).Sublist nodes ∧
    wl.length ≤ nodes.length := by
  have hwl : wl = nodes.filterMap (weighNodes.entry config healthinessFactor) := by
    rw [weighNodes_eq] at h
    split at h
    · simp at h
    · simp only [Option.some.injEq, Prod.mk.injEq, and_true] at h
      exact h.symm
  have hmap : wl.map weightedNode.Node = nodes.filter (feasible config) := by
    rw [hwl]
    exact filterMap_entry_nodes config healthinessFactor nodes
  refine ⟨hmap, ?_, ?_⟩
  · rw [hmap]
    exact List.filter_sublist _
  · have := List.length_filter_le (feasible config) nodes
    rw [← hmap, List.length_map] at this
    exact this

/-- C20, on three nodes of which the middle one is too small for a request of 10 of
memory: the first and the third are returned, in that order. -/
theorem weighNodes_filter_map_witness :
    weighNodes memoryRequest [nodeB, smallEast, nodeA] 0 =
      some ([⟨nodeB, 110⟩, ⟨nodeA, 110⟩], none) ∧
    [(⟨nodeB, 110⟩ : weightedNode), ⟨nodeA, 110⟩].map weightedNode.Node =
      [nodeB, smallEast, nodeA].filter (fun node =>
        !(decide (node.TotalMemory < memoryRequest.Memory) ||
          decide (node.TotalCpus < memoryRequest.CpuShares)) &&
        decide (cpuScoreOf memoryRequest node ≤ 100) &&
        decide (memoryScoreOf memoryRequest node ≤ 100)) ∧
    [(⟨nodeB, 110⟩ : weightedNode), ⟨nodeA, 110⟩].length ≤ [nodeB, smallEast, nodeA].length :=
  ⟨by decide,
    (weighNodes_filter_map memoryRequest [nodeB, smallEast, nodeA] 0
      [⟨nodeB, 110⟩, ⟨nodeA, 110⟩] (by decide)).1,
    (weighNodes_filter_map memoryRequest [nodeB, smallEast, nodeA] 0
      [⟨nodeB, 110⟩, ⟨nodeA, 110⟩] (by decide)).2.2⟩

end Swarm
